import Mathlib

/-!
Verification of the document-retrieval core of the `docerate` repository.

The Python sources under `src/rag/` (chunker.py, bm25.py, embeddings.py,
search.py, indexer.py) are shallowly embedded below.  Text is modelled as
Lean `String` / `List Char` (the corpus is ASCII), Python `float`
arithmetic is idealised as exact arithmetic over `ℚ` where the code only
adds/multiplies/divides rationals and over `ℝ` where `math.log` /
`numpy.sqrt` appear, and Python exceptions are modelled with `Except`.
Stateful file writes (indexer.py) are modelled by explicit state passing
over a record of the five persisted artifact slots.
-/

/-! ## Small Python-style string helpers (over `List Char`).

Core `String` functions such as `String.toLower` and `String.split` do not
reduce in the kernel, so the Python string operations used by the sources
are re-implemented over `List Char`.
-/

/-- `str.lower()` (ASCII). -/
def pyLower (s : String) : String := ⟨s.data.map Char.toLower⟩

/-- `str.strip()`: drop leading and trailing whitespace. -/
def pyStrip (s : String) : String :=
  ⟨(s.data.dropWhile Char.isWhitespace).reverse.dropWhile Char.isWhitespace |>.reverse⟩

/-- `str.split('\n')`-style split of a char list at every occurrence of `c`. -/
def splitAtChar (c : Char) (cs : List Char) : List (List Char) :=
  cs.foldr (fun x acc => match acc with
    | [] => if x = c then [[], []] else [[x]]
    | g :: gs => if x = c then [] :: g :: gs else (x :: g) :: gs) [[]]

/-- `"sep".join(parts)` for strings. -/
def pyJoin (sep : String) (parts : List String) : String :=
  ⟨List.intercalate sep.data (parts.map String.data)⟩

/-- `s.startswith(p)`. -/
def pyStartsWith (s p : String) : Bool := p.data.isPrefixOf s.data

/-- `s.endswith(p)`. -/
def pyEndsWith (s p : String) : Bool := p.data.isSuffixOf s.data

/-- `s[:n]` (character based, as in Python). -/
def pyTake (s : String) (n : ℕ) : String := ⟨s.data.take n⟩

/-- A regex `\w` word character (ASCII case of Python's `\w`). -/
def wordChar (c : Char) : Bool := c.isAlphanum || c = '_'

/-- Maximal runs of word characters of a char list: the list of matches of
`\b\w+\b` (equivalently of `\w+`) in left-to-right order. -/
def wordRunsAux : List Char → List Char → List (List Char)
  | [], cur => if cur.isEmpty then [] else [cur.reverse]
  | c :: rest, cur =>
      if wordChar c then wordRunsAux rest (c :: cur)
      else if cur.isEmpty then wordRunsAux rest [] else cur.reverse :: wordRunsAux rest []

def wordRuns (cs : List Char) : List String := (wordRunsAux cs []).map fun r => ⟨r⟩

/-! ## BM25 (src/rag/bm25.py) -/

/-- The stopword set of `BM25._tokenize`. -/
def bm25Stopwords : List String :=
  ["the", "is", "at", "which", "on", "and", "a", "an", "as", "are",
   "was", "were", "be", "have", "has", "had", "do", "does", "did",
   "will", "would", "could", "should", "may", "might", "must", "can",
   "this", "that", "these", "those", "i", "you", "he", "she", "it",
   "we", "they", "what", "who", "when", "where", "why", "how",
   "all", "each", "every", "both", "few", "more", "most", "other",
   "some", "such", "only", "own", "same", "so", "than", "too", "very",
   "just", "in", "of", "to", "for", "with", "by", "from", "about"]

/-- `BM25._tokenize`: lowercase, extract `\b\w+\b` tokens, drop stopwords and
tokens of length ≤ 2. -/
def bm25Tokenize (text : String) : List String :=
  (wordRuns (pyLower text).data).filter fun t => !bm25Stopwords.contains t && t.length > 2

/-- The fitted statistics of `BM25` (`fit` populates exactly these fields;
`doc_freqs` stores each document's token list, its `Counter` being recovered
by `List.count`). -/
structure BM25Model where
  k1 : ℚ
  b : ℚ
  docFreqs : List (List String)
  docLengths : List ℕ
  avgdl : ℚ
  docCount : ℕ
  deriving Repr

/-- `BM25.fit`. -/
def BM25.fit (k1 b : ℚ) (documents : List String) : BM25Model :=
  let toks := documents.map bm25Tokenize
  { k1 := k1
    b := b
    docFreqs := toks
    docLengths := toks.map List.length
    avgdl := if toks.isEmpty then 0 else ((toks.map List.length).sum : ℚ) / (toks.length : ℚ)
    docCount := documents.length }

/-- Document frequency of a term (the `doc_freq_counter` entry computed by
`fit`; terms absent from every document have count 0). -/
def BM25Model.df (m : BM25Model) (t : String) : ℕ :=
  m.docFreqs.countP fun d => d.contains t

/-- Membership in the `idf` dictionary: exactly the terms occurring in at
least one document get an `idf` entry in `fit`. -/
def BM25Model.inIdf (m : BM25Model) (t : String) : Bool :=
  m.docFreqs.any fun d => d.contains t

/-- The rational argument handed to `math.log` by `BM25._calculate_idf`. -/
def bm25IdfArg (totalDocs docFreq : ℕ) : ℚ :=
  ((totalDocs : ℚ) - (docFreq : ℚ) + 1/2) / ((docFreq : ℚ) + 1/2) + 1

/-- `BM25._calculate_idf` (a real number: `math.log(...)`). -/
noncomputable def BM25Model.idfVal (m : BM25Model) (t : String) : ℝ :=
  Real.log (bm25IdfArg m.docCount (m.df t))

/-- The rational factor `f(t,d)*(k1+1) / (f(t,d) + k1*(1 - b + b*|d|/avgdl))`
of one scoring term in `BM25.score`. -/
def BM25Model.termWeight (m : BM25Model) (docIndex freq : ℕ) : ℚ :=
  let docLen : ℚ := (m.docLengths.getD docIndex 0 : ℚ)
  ((freq : ℚ) * (m.k1 + 1)) / ((freq : ℚ) + m.k1 * (1 - m.b + m.b * docLen / m.avgdl))

/-- `BM25.score`: sum over the query's tokens; tokens without an `idf` entry
or absent from the document are skipped. -/
noncomputable def BM25Model.score (m : BM25Model) (query : String) (docIndex : ℕ) : ℝ :=
  (bm25Tokenize query).foldl (fun acc tok =>
    if m.inIdf tok then
      if (m.docFreqs.getD docIndex []).count tok = 0 then acc
      else acc + m.idfVal tok * (m.termWeight docIndex ((m.docFreqs.getD docIndex []).count tok) : ℚ)
    else acc) 0

/-! ## Chunker (src/rag/chunker.py) -/

/-- `len(content) // 4`: the token estimate used throughout the chunker. -/
def tokEst (s : String) : ℕ := s.length / 4

/-- First index at which `pat` occurs as a contiguous sublist, if any. -/
def findSub (pat : List Char) : List Char → Option ℕ
  | [] => if pat.isEmpty then some 0 else none
  | c :: rest =>
      if pat.isPrefixOf (c :: rest) then some 0
      else (findSub pat rest).map (· + 1)

/-- The fence delimiter of a markdown code block. -/
def fenceChars : List Char := ['`', '`', '`']

/-- Non-overlapping matches of the non-greedy pattern ` ```[\s\S]*?``` `,
scanned left to right (used by `_split_into_sentences`).  The fuel argument
only bounds the recursion; each step consumes at least six characters, so
`fuel = cs.length` never runs out. -/
def codeBlocksAux : ℕ → List Char → List (List Char)
  | 0, _ => []
  | fuel + 1, cs =>
      match findSub fenceChars cs with
      | none => []
      | some i =>
          let rest1 := cs.drop (i + 3)
          match findSub fenceChars rest1 with
          | none => []
          | some j => ((cs.drop i).take (j + 6)) :: codeBlocksAux fuel (rest1.drop (j + 3))

def pyCodeBlocks (cs : List Char) : List (List Char) := codeBlocksAux cs.length cs

/-- `str.replace(old, new)`: replace all non-overlapping occurrences, left to
right.  Fueled like `codeBlocksAux`; all uses have `old` non-empty. -/
def pyReplaceAux (old new : List Char) : ℕ → List Char → List Char
  | 0, cs => cs
  | fuel + 1, cs =>
      match findSub old cs with
      | none => cs
      | some i => cs.take i ++ new ++ pyReplaceAux old new fuel (cs.drop (i + old.length))

def pyReplace (cs old new : List Char) : List Char := pyReplaceAux old new cs.length cs

/-- Does the accumulated (reversed) sentence end with a sentence
terminator?  This is the `(?<=[.!?])` lookbehind. -/
def terminatorHead : List Char → Bool
  | p :: _ => p = '.' || p = '!' || p = '?'
  | [] => false

/-- `re.split(r'(?<=[.!?])\s+', text)`: split at each maximal whitespace run
preceded by `.`, `!` or `?`; the separator is dropped.  Fueled (each step
consumes at least one character, so `fuel = cs.length` never runs out). -/
def pySentSplitAux : ℕ → List Char → List Char → List (List Char)
  | _, [], cur => [cur.reverse]
  | 0, cs, cur => [cur.reverse ++ cs]
  | fuel + 1, c :: rest, cur =>
      if terminatorHead cur && c.isWhitespace then
        cur.reverse :: pySentSplitAux fuel ((c :: rest).dropWhile Char.isWhitespace) []
      else pySentSplitAux fuel rest (c :: cur)

/-- The placeholder `__CODE_BLOCK_{i}__`. -/
def placeholder (i : ℕ) : List Char := ("__CODE_BLOCK_" ++ toString i ++ "__").data

/-- `MarkdownChunker._split_into_sentences`. -/
def splitIntoSentences (text : String) : List String :=
  let cs := text.data
  let blocks := pyCodeBlocks cs
  let replaced := blocks.enum.foldl (fun t p => pyReplace t p.2 (placeholder p.1)) cs
  let sents := pySentSplitAux replaced.length replaced []
  let restored := blocks.enum.foldl
    (fun ss p => ss.map fun s => pyReplace s (placeholder p.1) p.2) sents
  restored.map fun s => (⟨s⟩ : String)

/-- The metadata dictionary fields the chunker reads. -/
structure PostMeta where
  title : String
  tags : List String
  deriving Repr, DecidableEq

/-- `Chunk` (chunker.py dataclass). -/
structure Chunk where
  chunkId : String
  content : String
  postSlug : String
  postTitle : String
  sectionHeading : Option String
  tags : List String
  urlFragment : String
  position : ℕ
  tokenCount : ℕ
  deriving Repr, DecidableEq

/-- Python truthiness of the optional `section_heading` string. -/
def pyTruthy (o : Option String) : Bool :=
  match o with
  | none => false
  | some s => !s.isEmpty

def dashOrSpace (c : Char) : Bool := c.isWhitespace || c = '-'

/-- Collapse every `[-\s]+` run to a single `-`. -/
def collapseDashRuns : List Char → Bool → List Char
  | [], _ => []
  | c :: rest, inRun =>
      if dashOrSpace c then
        if inRun then collapseDashRuns rest true else '-' :: collapseDashRuns rest true
      else c :: collapseDashRuns rest false

/-- The URL-fragment slug of a heading: lowercase, drop `[^\w\s-]`, collapse
`[-\s]+` runs to `-`. -/
def headingSlug (h : String) : String :=
  ⟨collapseDashRuns ((pyLower h).data.filter fun c => wordChar c || c.isWhitespace || c = '-') false⟩

/-- `MarkdownChunker._create_chunk`.  The source sets
`chunk_id = md5(f"{post_slug}_{position}_{content[:50]}").hexdigest()[:16]`;
the md5 hex digest is an external hash not modelled here, so `chunkId`
stores the pre-hash key itself (no claim depends on the digest value). -/
def mkChunk (meta : PostMeta) (postSlug : String) (sectionHeading : Option String)
    (position : ℕ) (content : String) : Chunk :=
  { chunkId := postSlug ++ "_" ++ toString position ++ "_" ++ pyTake content 50
    content := content
    postSlug := postSlug
    postTitle := meta.title
    sectionHeading := sectionHeading
    tags := meta.tags
    urlFragment :=
      if pyTruthy sectionHeading then "#" ++ headingSlug (sectionHeading.getD "") else ""
    position := position
    tokenCount := content.length / 4 }

/-- The overlap carry-over of `_create_chunks_from_section`: walk the chunk's
sentences in reverse, prepending while the overlap token budget holds. -/
def overlapPickAux (overlapT : ℕ) : List String → List String → ℕ → List String × ℕ
  | [], acc, tot => (acc, tot)
  | s :: rest, acc, tot =>
      if tot + tokEst s ≤ overlapT then overlapPickAux overlapT rest (s :: acc) (tot + tokEst s)
      else (acc, tot)

def overlapPick (overlapT : ℕ) (cur : List String) : List String × ℕ :=
  overlapPickAux overlapT cur.reverse [] 0

/-- The greedy sentence-packing loop of `_create_chunks_from_section`,
returning the sentence list of each emitted chunk in order. -/
def packGo (maxT overlapT : ℕ) : List String → List String → ℕ → List (List String)
  | [], cur, _ => if cur.isEmpty then [] else [cur]
  | s :: rest, cur, curTok =>
      if curTok + tokEst s ≤ maxT then packGo maxT overlapT rest (cur ++ [s]) (curTok + tokEst s)
      else
        (if cur.isEmpty then [] else [cur]) ++
          (if overlapT > 0 && !cur.isEmpty then
            packGo maxT overlapT rest
              ((overlapPick overlapT cur).1 ++ [s]) ((overlapPick overlapT cur).2 + tokEst s)
          else packGo maxT overlapT rest [s] (tokEst s))

/-- `MarkdownChunker._create_chunks_from_section`. -/
def createChunksFromSection (maxT overlapT : ℕ) (content : String) (meta : PostMeta)
    (postSlug : String) (sectionHeading : Option String) (position : ℕ) : List Chunk :=
  let c := pyStrip content
  if c.isEmpty then []
  else if tokEst c ≤ maxT then [mkChunk meta postSlug sectionHeading position c]
  else
    (packGo maxT overlapT (splitIntoSentences c) [] 0).enum.map fun p =>
      mkChunk meta postSlug sectionHeading (position + p.1) (pyJoin " " p.2)

/-- A line matched by `re.split(r'^## (.+)$', ..., re.MULTILINE)`. -/
def isH2Line (l : String) : Bool := pyStartsWith l "## " && l.length > 3

/-- A line matched by the `^### (.+)$` split. -/
def isH3Line (l : String) : Bool := pyStartsWith l "### " && l.length > 4

/-- Line-based model of the multiline heading split: returns the lines before
the first heading and, for each heading, its text and its body lines.  The
source keeps boundary newlines inside the segments; every segment is stripped
before any use, so rejoining the body lines with `\n` yields the same chunks. -/
def splitByHeading (isHead : String → Bool) (dropN : ℕ) :
    List String → List String × List (String × List String)
  | [] => ([], [])
  | l :: rest =>
      let r := splitByHeading isHead dropN rest
      if isHead l then ([], ((⟨l.data.drop dropN⟩ : String), r.1) :: r.2)
      else (l :: r.1, r.2)

/-- One guarded `_create_chunks_from_section` call of `chunk_document`: if
the section's text is non-blank, chunk it at the current position counter
and append the chunk list, advancing the counter by its length. -/
def sectionStep (maxT overlapT : ℕ) (meta : PostMeta) (postSlug : String)
    (sh : Option String) (body : List String) (acc : List (List Chunk) × ℕ) :
    List (List Chunk) × ℕ :=
  let str := pyJoin "\n" body
  if (pyStrip str).isEmpty then acc
  else
    let cs := createChunksFromSection maxT overlapT str meta postSlug sh acc.2
    (acc.1 ++ [cs], acc.2 + cs.length)

/-- The per-call results of `_create_chunks_from_section` inside
`chunk_document`, in emission order, with the `position` counter threaded
exactly as in the source (the intro before the first H2, then for each H2
section its pre-H3 content followed by its H3 subsections). -/
def chunkDocumentSections (maxT overlapT : ℕ) (content : String) (meta : PostMeta)
    (postSlug : String) : List (List Chunk) :=
  let ls := (splitAtChar '\n' content.data).map fun l => (⟨l⟩ : String)
  let sp := splitByHeading isH2Line 3 ls
  let start := sectionStep maxT overlapT meta postSlug none sp.1 ([], 0)
  let res := sp.2.foldl (fun acc sec =>
    let sp3 := splitByHeading isH3Line 4 sec.2
    let acc1 := sectionStep maxT overlapT meta postSlug (some sec.1) sp3.1 acc
    sp3.2.foldl (fun a sub =>
      sectionStep maxT overlapT meta postSlug (some (sec.1 ++ " > " ++ sub.1)) sub.2 a)
      acc1) start
  res.1

/-- `MarkdownChunker.chunk_document`: the successive `chunks.extend(...)`
calls concatenate the per-section chunk lists. -/
def chunkDocument (maxT overlapT : ℕ) (content : String) (meta : PostMeta)
    (postSlug : String) : List Chunk :=
  (chunkDocumentSections maxT overlapT content meta postSlug).flatten

/-! ## Dense vector store (src/rag/embeddings.py) -/

/-- The slice of a stored metadata dictionary that `EmbeddingStore.search`
reads (`meta.get('tags', [])`). -/
structure MetaEntry where
  tags : List String
  deriving Repr, DecidableEq

/-- `EmbeddingStore` state. -/
structure EmbeddingStoreModel where
  dimension : ℕ
  embeddings : List (List ℝ)
  chunkIds : List String
  metadata : List MetaEntry

def dotp (u v : List ℝ) : ℝ := (List.zipWith (fun a b => a * b) u v).sum

/-- `np.linalg.norm`. -/
noncomputable def l2norm (v : List ℝ) : ℝ := Real.sqrt ((v.map fun x => x * x).sum)

noncomputable def normalizeVec (v : List ℝ) : List ℝ := v.map fun x => x / l2norm v

/-- `np.argsort(sims)[::-1]`: indices sorted ascending by similarity
(the source's quicksort leaves tie order unspecified; modelled stable),
then reversed. -/
noncomputable def argsortDesc (sims : List ℝ) : List ℕ :=
  (@List.insertionSort ℕ (fun a b => sims.getD a 0 ≤ sims.getD b 0)
    (fun _ _ => Classical.propDecidable _) (List.range sims.length)).reverse

/-- One entry of the result list of `EmbeddingStore.search`. -/
structure DenseHit where
  chunkId : String
  score : ℝ
  meta : MetaEntry

/-- `EmbeddingStore.search`. -/
noncomputable def EmbeddingStoreModel.search (st : EmbeddingStoreModel) (q : List ℝ)
    (topk : ℕ) (filterTags : Option (List String)) : List DenseHit :=
  if st.embeddings.isEmpty then [] else
  let ts := filterTags.getD []
  let useFilter := !ts.isEmpty
  let rowIdxs :=
    if useFilter then
      (List.range st.metadata.length).filter fun i =>
        ts.any fun t => ((st.metadata.getD i ⟨[]⟩).tags).contains t
    else List.range st.embeddings.length
  if useFilter && rowIdxs.isEmpty then [] else
  let qn := normalizeVec q
  let sims := rowIdxs.map fun i => dotp (normalizeVec (st.embeddings.getD i [])) qn
  ((argsortDesc sims).take topk).map fun p =>
    { chunkId := st.chunkIds.getD (rowIdxs.getD p 0) ""
      score := sims.getD p 0
      meta := st.metadata.getD (rowIdxs.getD p 0) ⟨[]⟩ }

/-- The content of the metadata JSON file written by `EmbeddingStore.save`
and read back by `EmbeddingStore.load`. -/
structure StoreMetaFile where
  chunkIds : List String
  metadata : List MetaEntry
  dimension : ℕ

/-- `EmbeddingStore.load`: reads the embeddings file and the metadata file
and fills in the store's fields.  The `Except` result records whether the
method raises; the body performs no validation of any field, so no error
is ever produced. -/
def EmbeddingStore.load (embeddingsFile : List (List ℝ)) (metadataFile : StoreMetaFile) :
    Except String EmbeddingStoreModel :=
  .ok { dimension := metadataFile.dimension
        embeddings := embeddingsFile
        chunkIds := metadataFile.chunkIds
        metadata := metadataFile.metadata }

/-! ## Hybrid search (src/rag/search.py) -/

/-- The fields of a chunk dictionary that `HybridSearch` reads. -/
structure ChunkDict where
  chunkId : String
  content : String
  postSlug : String
  postTitle : String
  sectionHeading : Option String
  tags : List String
  urlFragment : String
  deriving Repr, DecidableEq

/-- `SearchResult` (search.py dataclass).  Scores reaching a `SearchResult`
are RRF/rerank values, which are rational. -/
structure SearchResult where
  chunkId : String
  content : String
  score : ℚ
  postSlug : String
  postTitle : String
  sectionHeading : Option String
  tags : List String
  url : String
  sourceType : String
  deriving Repr, DecidableEq

/-- `self.chunk_id_to_idx` followed by `self.chunks[...]`: the dict
comprehension keeps the **last** index for a duplicated chunk id. -/
def lookupChunkLast (chunks : List ChunkDict) (cid : String) : Option ChunkDict :=
  chunks.reverse.find? fun c => c.chunkId = cid

/-- One entry of the `scores` dict of `_reciprocal_rank_fusion`. -/
structure FuseEntry where
  id : String
  dense : ℚ
  sparse : ℚ
  deriving Repr, DecidableEq

/-- `scores[chunk_id]['dense'] = v` (inserting `{'dense': v, 'sparse': 0}`
for a new id, preserving dict insertion order). -/
def upsertDense (cid : String) (v : ℚ) : List FuseEntry → List FuseEntry
  | [] => [⟨cid, v, 0⟩]
  | e :: rest => if e.id = cid then ⟨e.id, v, e.sparse⟩ :: rest else e :: upsertDense cid v rest

/-- `scores[chunk_id]['sparse'] = v`. -/
def upsertSparse (cid : String) (v : ℚ) : List FuseEntry → List FuseEntry
  | [] => [⟨cid, 0, v⟩]
  | e :: rest => if e.id = cid then ⟨e.id, e.dense, v⟩ :: rest else e :: upsertSparse cid v rest

/-- The two enumeration loops of `_reciprocal_rank_fusion` (`k = 60`). -/
def fuseScores (alpha : ℚ) (denseIds sparseIds : List String) : List FuseEntry :=
  let m1 := denseIds.enum.foldl (fun m p => upsertDense p.2 (alpha / (60 + (p.1 : ℚ) + 1)) m) []
  sparseIds.enum.foldl (fun m p => upsertSparse p.2 ((1 - alpha) / (60 + (p.1 : ℚ) + 1)) m) m1

/-- `scores[chunk_id]['rrf'] = dense + sparse`. -/
def FuseEntry.rrf (e : FuseEntry) : ℚ := e.dense + e.sparse

/-- The `SearchResult` built for one fused entry once its chunk id has
resolved in the chunk table (`_reciprocal_rank_fusion`, result loop). -/
def fuseResult (e : FuseEntry) (c : ChunkDict) : SearchResult :=
  { chunkId := e.id
    content := c.content
    score := e.rrf
    postSlug := c.postSlug
    postTitle := c.postTitle
    sectionHeading := c.sectionHeading
    tags := c.tags
    url := "/" ++ c.postSlug ++ c.urlFragment
    sourceType :=
      if (0 : ℚ) < e.dense ∧ (0 : ℚ) < e.sparse then "hybrid"
      else if (0 : ℚ) < e.dense then "dense" else "sparse" }

/-- `HybridSearch._reciprocal_rank_fusion`.  The input result lists carry
scores of arbitrary type because the method reads only the ids. -/
def reciprocalRankFusion {σ τ : Type} (alpha : ℚ) (chunks : List ChunkDict)
    (dense : List (String × σ)) (sparse : List (String × τ)) (topk : ℕ) : List SearchResult :=
  let fused := fuseScores alpha (dense.map Prod.fst) (sparse.map Prod.fst)
  let sorted := (List.insertionSort (fun a b : FuseEntry => b.rrf ≤ a.rrf) fused).take topk
  sorted.filterMap fun e => (lookupChunkLast chunks e.id).map (fuseResult e)

/-- Maximal runs of characters satisfying `p` (used for Python's
whitespace `str.split()`). -/
def runsByAux (p : Char → Bool) : List Char → List Char → List (List Char)
  | [], cur => if cur.isEmpty then [] else [cur.reverse]
  | c :: rest, cur =>
      if p c then runsByAux p rest (c :: cur)
      else if cur.isEmpty then runsByAux p rest [] else cur.reverse :: runsByAux p rest []

/-- `set(s.lower().split())`, as a deduplicated list. -/
def termSetOf (s : String) : List String :=
  ((runsByAux (fun c => !c.isWhitespace) (pyLower s).data []).map fun r => (⟨r⟩ : String)).dedup

/-- `len(a & b)` for the term sets (`a` already deduplicated). -/
def interCount (a b : List String) : ℕ := (a.filter fun t => b.contains t).length

/-- The body of the rerank loop: blend the fused score with term-overlap
fractions (weights 0.4 / 0.3 / 0.2, and `0.5 * 0.1` for the section). -/
def rerankOne (qTerms : List String) (r : SearchResult) : SearchResult :=
  let contentOverlap : ℚ := (interCount qTerms (termSetOf r.content) : ℚ) / (qTerms.length : ℚ)
  let titleOverlap : ℚ := (interCount qTerms (termSetOf r.postTitle) : ℚ) / (qTerms.length : ℚ)
  let sectionBonus : ℚ :=
    if pyTruthy r.sectionHeading then
      (interCount qTerms (termSetOf (r.sectionHeading.getD "")) : ℚ) / (qTerms.length : ℚ) * (1/2)
    else 0
  { r with score := r.score * (2/5) + contentOverlap * (3/10) + titleOverlap * (1/5) + sectionBonus * (1/10) }

/-- `HybridSearch._rerank_results`.  With a non-empty result list and an
empty query term set, the first loop iteration divides by
`len(query_terms) = 0`, raising `ZeroDivisionError`. -/
def rerankResults (query : String) (results : List SearchResult) (topk : ℕ) :
    Except String (List SearchResult) :=
  if results.isEmpty then .ok [] else
  let qTerms := termSetOf query
  if qTerms.isEmpty then .error "ZeroDivisionError" else
  .ok ((List.insertionSort (fun a b : SearchResult => b.score ≤ a.score)
    (results.map (rerankOne qTerms))).take topk)

/-- `HybridSearch` state: the two indices, the chunk table, the dense
weight `alpha`, and the external embedding provider (`embed_query`). -/
structure HybridEngine where
  store : EmbeddingStoreModel
  embedQuery : String → List ℝ
  bm25 : BM25Model
  chunks : List ChunkDict
  alpha : ℚ

/-- `BM25.search`: score every document, keep positive scores, stable-sort
descending, truncate. -/
noncomputable def BM25Model.search (m : BM25Model) (query : String) (topk : ℕ) :
    List (ℕ × ℝ) :=
  let scored := ((List.range m.docCount).map fun i => (i, m.score query i)).filter
    fun p => @decide (0 < p.2) (Classical.propDecidable _)
  (@List.insertionSort _ (fun a b : ℕ × ℝ => b.2 ≤ a.2)
    (fun _ _ => Classical.propDecidable _) scored).take topk

def defaultChunkDict : ChunkDict := ⟨"", "", "", "", none, [], ""⟩

/-- The filter-and-break loop of `_sparse_search` (`cap` counts the
remaining capacity; the source appends and then breaks once `top_k`
results are collected, so even `top_k = 0` emits one result). -/
def sparseFilterLoop (chunks : List ChunkDict) (ts : List String) (useFilter : Bool) :
    ℕ → List (ℕ × ℝ) → List (String × ℝ)
  | _, [] => []
  | cap, (i, s) :: rest =>
      let c := chunks.getD i defaultChunkDict
      if useFilter && !(ts.any fun t => c.tags.contains t) then
        sparseFilterLoop chunks ts useFilter cap rest
      else if cap ≤ 1 then [(c.chunkId, s)]
      else (c.chunkId, s) :: sparseFilterLoop chunks ts useFilter (cap - 1) rest

/-- `HybridSearch._sparse_search` (BM25 is asked for `2 * top_k`
candidates; the tag filter is applied afterwards). -/
noncomputable def HybridSearch.sparseSearch (e : HybridEngine) (query : String)
    (topk : ℕ) (filterTags : Option (List String)) : List (String × ℝ) :=
  sparseFilterLoop e.chunks (filterTags.getD []) (!(filterTags.getD []).isEmpty) topk
    (e.bm25.search query (topk * 2))

/-- `HybridSearch._dense_search`. -/
noncomputable def HybridSearch.denseSearch (e : HybridEngine) (query : String)
    (topk : ℕ) (filterTags : Option (List String)) : List (String × ℝ) :=
  (e.store.search (e.embedQuery query) topk filterTags).map fun h => (h.chunkId, h.score)

/-- `HybridSearch.search`. -/
noncomputable def HybridSearch.search (e : HybridEngine) (query : String) (topk : ℕ)
    (filterTags : Option (List String)) (rerank : Bool) : Except String (List SearchResult) :=
  let dense := HybridSearch.denseSearch e query (topk * 2) filterTags
  let sparse := HybridSearch.sparseSearch e query (topk * 2) filterTags
  let merged := reciprocalRankFusion e.alpha e.chunks dense sparse topk
  if rerank && !merged.isEmpty then rerankResults query merged topk else .ok merged

/-! ## Indexing pipeline persistence (src/rag/indexer.py) -/

/-- The five artifact files of the `data/` directory. -/
structure DataDir (A : Type) where
  chunksJson : A
  embeddingsNpy : A
  metadataJson : A
  bm25Pkl : A
  summaryJson : A
  deriving Repr, DecidableEq

/-- The steps of `BlogIndexer.run`, with `save_artifacts` subdivided into
its five sequential file writes (chunks.json; then `EmbeddingStore.save`
writing embeddings.npy and metadata.json; then bm25_index.pkl; then
index_summary.json). -/
inductive PipelineStep
  | loadPosts | processPosts | generateEmbeddings | buildBm25
  | writeChunks | writeEmbeddings | writeMetadata | writeBm25 | writeSummary
  deriving Repr, DecidableEq

/-- The steps that run before any file is written. -/
def isComputeStep : PipelineStep → Bool
  | .loadPosts | .processPosts | .generateEmbeddings | .buildBm25 => true
  | _ => false

/-- `BlogIndexer.save_artifacts`: each artifact is written directly to its
final path, in source order; `failAt` injects an exception immediately
before the named write.  Returns the resulting directory state and whether
the method completed. -/
def saveArtifacts {A : Type} (fs art : DataDir A) (failAt : Option PipelineStep) :
    DataDir A × Bool :=
  if failAt = some .writeChunks then (fs, false) else
  let fs1 := { fs with chunksJson := art.chunksJson }
  if failAt = some .writeEmbeddings then (fs1, false) else
  let fs2 := { fs1 with embeddingsNpy := art.embeddingsNpy }
  if failAt = some .writeMetadata then (fs2, false) else
  let fs3 := { fs2 with metadataJson := art.metadataJson }
  if failAt = some .writeBm25 then (fs3, false) else
  let fs4 := { fs3 with bm25Pkl := art.bm25Pkl }
  if failAt = some .writeSummary then (fs4, false) else
  ({ fs4 with summaryJson := art.summaryJson }, true)

/-- `BlogIndexer.run` as a transition on the published directory state:
steps 1–4 (load, chunk, embed, BM25 fit) write no files and an exception
there leaves the directory untouched; with no posts the method returns
early; otherwise `save_artifacts` runs.  `art` is the artifact set computed
by steps 1–4. -/
def runPipeline {A : Type} (fs art : DataDir A) (noPosts : Bool)
    (failAt : Option PipelineStep) : DataDir A × Bool :=
  if (failAt.map isComputeStep).getD false then (fs, false)
  else if noPosts then (fs, true)
  else saveArtifacts fs art failAt

/-- The directory state after the first `k` of the five sequential artifact
writes have landed. -/
def writeFirst {A : Type} (k : ℕ) (fs art : DataDir A) : DataDir A :=
  { chunksJson := if 1 ≤ k then art.chunksJson else fs.chunksJson
    embeddingsNpy := if 2 ≤ k then art.embeddingsNpy else fs.embeddingsNpy
    metadataJson := if 3 ≤ k then art.metadataJson else fs.metadataJson
    bm25Pkl := if 4 ≤ k then art.bm25Pkl else fs.bm25Pkl
    summaryJson := if 5 ≤ k then art.summaryJson else fs.summaryJson }

/-! ## Fusion characterization lemmas -/

/-- The RRF contribution of one ranked list to a candidate id. -/
def rrfContrib (w : ℚ) (ids : List String) (cid : String) : ℚ :=
  if cid ∈ ids then w / (60 + (ids.indexOf cid : ℚ) + 1) else 0

def fuseIds (m : List FuseEntry) : List String := m.map FuseEntry.id

lemma find?_upsertDense_self (cid : String) (v : ℚ) (m : List FuseEntry) :
    (upsertDense cid v m).find? (fun e => e.id = cid) =
      some ⟨cid, v, (((m.find? (fun e => e.id = cid)).map FuseEntry.sparse).getD 0)⟩ := by
  induction m with
  | nil => simp [upsertDense, List.find?]
  | cons e rest ih =>
      by_cases h : e.id = cid
      · simp [upsertDense, h, List.find?]
      · simp [upsertDense, h, List.find?, ih]

lemma find?_upsertDense_other {cid x : String} (v : ℚ) (m : List FuseEntry)
    (hne : x ≠ cid) :
    (upsertDense x v m).find? (fun e => e.id = cid) = m.find? (fun e => e.id = cid) := by
  induction m with
  | nil => simp [upsertDense, List.find?, hne]
  | cons e rest ih =>
      by_cases h : e.id = x
      · simp [upsertDense, h, List.find?, hne]
      · by_cases h2 : e.id = cid <;>
          simp [upsertDense, h, h2, List.find?, ih, hne, Ne.symm hne]

lemma find?_upsertSparse_self (cid : String) (v : ℚ) (m : List FuseEntry) :
    (upsertSparse cid v m).find? (fun e => e.id = cid) =
      some ⟨cid, (((m.find? (fun e => e.id = cid)).map FuseEntry.dense).getD 0), v⟩ := by
  induction m with
  | nil => simp [upsertSparse, List.find?]
  | cons e rest ih =>
      by_cases h : e.id = cid
      · simp [upsertSparse, h, List.find?]
      · simp [upsertSparse, h, List.find?, ih]

lemma find?_upsertSparse_other {cid x : String} (v : ℚ) (m : List FuseEntry)
    (hne : x ≠ cid) :
    (upsertSparse x v m).find? (fun e => e.id = cid) = m.find? (fun e => e.id = cid) := by
  induction m with
  | nil => simp [upsertSparse, List.find?, hne]
  | cons e rest ih =>
      by_cases h : e.id = x
      · simp [upsertSparse, h, List.find?, hne]
      · by_cases h2 : e.id = cid <;>
          simp [upsertSparse, h, h2, List.find?, ih, hne, Ne.symm hne]

lemma fuseIds_upsertDense (cid : String) (v : ℚ) (m : List FuseEntry) :
    fuseIds (upsertDense cid v m) =
      if cid ∈ fuseIds m then fuseIds m else fuseIds m ++ [cid] := by
  induction m with
  | nil => simp [upsertDense, fuseIds]
  | cons e rest ih =>
      by_cases h : e.id = cid
      · simp [upsertDense, h, fuseIds]
      · have hne : ¬cid = e.id := fun hh => h hh.symm
        simp only [upsertDense, fuseIds, List.map_cons, if_neg h] at ih ⊢
        rw [ih]
        by_cases h2 : cid ∈ rest.map FuseEntry.id <;>
          simp [List.mem_cons, hne, h2]

lemma fuseIds_upsertSparse (cid : String) (v : ℚ) (m : List FuseEntry) :
    fuseIds (upsertSparse cid v m) =
      if cid ∈ fuseIds m then fuseIds m else fuseIds m ++ [cid] := by
  induction m with
  | nil => simp [upsertSparse, fuseIds]
  | cons e rest ih =>
      by_cases h : e.id = cid
      · simp [upsertSparse, h, fuseIds]
      · have hne : ¬cid = e.id := fun hh => h hh.symm
        simp only [upsertSparse, fuseIds, List.map_cons, if_neg h] at ih ⊢
        rw [ih]
        by_cases h2 : cid ∈ rest.map FuseEntry.id <;>
          simp [List.mem_cons, hne, h2]

lemma find?_eq_none_of_not_mem_fuseIds {cid : String} {m : List FuseEntry}
    (h : cid ∉ fuseIds m) : m.find? (fun e => e.id = cid) = none := by
  induction m with
  | nil => simp [List.find?]
  | cons e rest ih =>
      simp only [fuseIds, List.map_cons, List.mem_cons] at h
      push_neg at h
      have h1 : ¬e.id = cid := fun hh => h.1 hh.symm
      simp only [List.find?, h1, decide_False]
      exact ih (by simpa [fuseIds] using h.2)

lemma find?_of_mem_nodup {e : FuseEntry} {m : List FuseEntry}
    (hmem : e ∈ m) (hnd : (fuseIds m).Nodup) : m.find? (fun x => x.id = e.id) = some e := by
  induction m with
  | nil => simp at hmem
  | cons a rest ih =>
      rcases List.mem_cons.1 hmem with rfl | hmem2
      · simp [List.find?]
      · have hane : ¬a.id = e.id := by
          intro hh
          have : a.id ∈ fuseIds rest := by
            rw [hh]; exact List.mem_map_of_mem FuseEntry.id hmem2
          simp only [fuseIds, List.map_cons, List.nodup_cons] at hnd
          exact hnd.1 (by simpa [fuseIds] using this)
        simp only [List.find?, hane, decide_False]
        exact ih hmem2 (by
          simp only [fuseIds, List.map_cons, List.nodup_cons] at hnd
          exact hnd.2)

lemma nodup_fuseIds_upsertDense {m : List FuseEntry} (cid : String) (v : ℚ)
    (h : (fuseIds m).Nodup) : (fuseIds (upsertDense cid v m)).Nodup := by
  rw [fuseIds_upsertDense]
  by_cases h2 : cid ∈ fuseIds m <;> simp [List.nodup_append, h2, h]

lemma nodup_fuseIds_upsertSparse {m : List FuseEntry} (cid : String) (v : ℚ)
    (h : (fuseIds m).Nodup) : (fuseIds (upsertSparse cid v m)).Nodup := by
  rw [fuseIds_upsertSparse]
  by_cases h2 : cid ∈ fuseIds m <;> simp [List.nodup_append, h2, h]

lemma nodup_fuseIds_foldl_upsertDense (alpha : ℚ) :
    ∀ (xs : List (ℕ × String)) (m0 : List FuseEntry), (fuseIds m0).Nodup →
      (fuseIds (xs.foldl (fun m p => upsertDense p.2 (alpha / (60 + (p.1 : ℚ) + 1)) m) m0)).Nodup
  | [], m0, h => h
  | p :: rest, m0, h =>
      nodup_fuseIds_foldl_upsertDense alpha rest _ (nodup_fuseIds_upsertDense _ _ h)

lemma nodup_fuseIds_foldl_upsertSparse (w : ℚ) :
    ∀ (xs : List (ℕ × String)) (m0 : List FuseEntry), (fuseIds m0).Nodup →
      (fuseIds (xs.foldl (fun m p => upsertSparse p.2 (w / (60 + (p.1 : ℚ) + 1)) m) m0)).Nodup
  | [], m0, h => h
  | p :: rest, m0, h =>
      nodup_fuseIds_foldl_upsertSparse w rest _ (nodup_fuseIds_upsertSparse _ _ h)

lemma nodup_fuseIds_fuseScores (alpha : ℚ) (dIds sIds : List String) :
    (fuseIds (fuseScores alpha dIds sIds)).Nodup := by
  unfold fuseScores
  exact nodup_fuseIds_foldl_upsertSparse _ _ _
    (nodup_fuseIds_foldl_upsertDense _ _ _ (by simp [fuseIds]))

lemma foldl_upsertDense_find? (alpha : ℚ) :
    ∀ (xs : List String) (n : ℕ) (m0 : List FuseEntry), xs.Nodup →
      (∀ x ∈ xs, x ∉ fuseIds m0) → ∀ cid,
      ((xs.enumFrom n).foldl (fun m p => upsertDense p.2 (alpha / (60 + (p.1 : ℚ) + 1)) m)
          m0).find? (fun e => e.id = cid) =
        if cid ∈ xs then
          some ⟨cid, alpha / (60 + ((n + xs.indexOf cid : ℕ) : ℚ) + 1), 0⟩
        else m0.find? (fun e => e.id = cid) := by
  intro xs
  induction xs with
  | nil => intro n m0 _ _ cid; simp [List.enumFrom]
  | cons x rest ih =>
      intro n m0 hnd hfresh cid
      have hndrest : rest.Nodup := (List.nodup_cons.1 hnd).2
      have hxrest : x ∉ rest := (List.nodup_cons.1 hnd).1
      have hstep : (x :: rest).enumFrom n = (n, x) :: rest.enumFrom (n + 1) := rfl
      rw [hstep]
      simp only [List.foldl_cons]
      set m1 := upsertDense x (alpha / (60 + (n : ℚ) + 1)) m0 with hm1
      have hfresh1 : ∀ y ∈ rest, y ∉ fuseIds m1 := by
        intro y hy
        rw [hm1, fuseIds_upsertDense]
        have hy0 : y ∉ fuseIds m0 := hfresh y (List.mem_cons_of_mem x hy)
        by_cases hx0 : x ∈ fuseIds m0
        · simpa [hx0] using hy0
        · simp only [hx0, if_false, List.mem_append, List.mem_singleton]
          rintro (hc | hc)
          · exact hy0 hc
          · exact hxrest (hc ▸ hy)
      rw [ih (n + 1) m1 hndrest hfresh1 cid]
      by_cases hcx : cid = x
      · subst hcx
        have : cid ∉ rest := hxrest
        simp only [this, if_false, List.mem_cons, true_or, if_true]
        rw [hm1, find?_upsertDense_self]
        have h0 : m0.find? (fun e => e.id = cid) = none :=
          find?_eq_none_of_not_mem_fuseIds (hfresh cid (List.mem_cons_self cid rest))
        rw [h0]
        simp [List.indexOf_cons_self]
      · by_cases hcr : cid ∈ rest
        · simp only [hcr, if_true, List.mem_cons, hcr, or_true, if_true]
          have hidx : (x :: rest).indexOf cid = rest.indexOf cid + 1 := by
            simp [List.indexOf_cons, hcx, Ne.symm]
          rw [hidx]
          congr 2
          push_cast
          ring
        · simp only [hcr, if_false, List.mem_cons, hcx, hcr, or_self, if_false]
          rw [hm1, find?_upsertDense_other _ _ (fun hh => hcx hh.symm)]

lemma foldl_upsertSparse_find? (w : ℚ) :
    ∀ (xs : List String) (n : ℕ) (m0 : List FuseEntry), xs.Nodup → ∀ cid,
      ((xs.enumFrom n).foldl (fun m p => upsertSparse p.2 (w / (60 + (p.1 : ℚ) + 1)) m)
          m0).find? (fun e => e.id = cid) =
        if cid ∈ xs then
          some ⟨cid, (((m0.find? (fun e => e.id = cid)).map FuseEntry.dense).getD 0),
            w / (60 + ((n + xs.indexOf cid : ℕ) : ℚ) + 1)⟩
        else m0.find? (fun e => e.id = cid) := by
  intro xs
  induction xs with
  | nil => intro n m0 _ cid; simp [List.enumFrom]
  | cons x rest ih =>
      intro n m0 hnd cid
      have hndrest : rest.Nodup := (List.nodup_cons.1 hnd).2
      have hxrest : x ∉ rest := (List.nodup_cons.1 hnd).1
      have hstep : (x :: rest).enumFrom n = (n, x) :: rest.enumFrom (n + 1) := rfl
      rw [hstep]
      simp only [List.foldl_cons]
      set m1 := upsertSparse x (w / (60 + (n : ℚ) + 1)) m0 with hm1
      rw [ih (n + 1) m1 hndrest cid]
      by_cases hcx : cid = x
      · subst hcx
        have : cid ∉ rest := hxrest
        simp only [this, if_false, List.mem_cons, true_or, if_true]
        rw [hm1, find?_upsertSparse_self]
        simp [List.indexOf_cons_self]
      · by_cases hcr : cid ∈ rest
        · simp only [hcr, if_true, List.mem_cons, hcr, or_true, if_true]
          have hidx : (x :: rest).indexOf cid = rest.indexOf cid + 1 := by
            simp [List.indexOf_cons, hcx, Ne.symm]
          rw [hm1, find?_upsertSparse_other _ _ (fun hh => hcx hh.symm), hidx]
          congr 3
          push_cast
          ring
        · simp only [hcr, if_false, List.mem_cons, hcx, hcr, or_self, if_false]
          rw [hm1, find?_upsertSparse_other _ _ (fun hh => hcx hh.symm)]

lemma fuseScores_find? (alpha : ℚ) (dIds sIds : List String)
    (hd : dIds.Nodup) (hs : sIds.Nodup) (cid : String) :
    (fuseScores alpha dIds sIds).find? (fun e => e.id = cid) =
      if cid ∈ dIds ∨ cid ∈ sIds then
        some ⟨cid, rrfContrib alpha dIds cid, rrfContrib (1 - alpha) sIds cid⟩
      else none := by
  unfold fuseScores
  have h1 : ∀ (l : List String), l.enum = l.enumFrom 0 := fun _ => rfl
  rw [h1, h1]
  rw [foldl_upsertSparse_find? (1 - alpha) sIds 0 _ hs cid]
  rw [foldl_upsertDense_find? alpha dIds 0 [] hd (by simp [fuseIds]) cid]
  by_cases hcs : cid ∈ sIds
  · by_cases hcd : cid ∈ dIds
    · simp [hcs, hcd, rrfContrib]
    · simp [hcs, hcd, rrfContrib, List.find?]
  · by_cases hcd : cid ∈ dIds
    · simp [hcs, hcd, rrfContrib]
    · simp [hcs, hcd, List.find?]

lemma mem_fuseScores_spec (alpha : ℚ) (dIds sIds : List String)
    (hd : dIds.Nodup) (hs : sIds.Nodup) :
    ∀ e ∈ fuseScores alpha dIds sIds,
      e.dense = rrfContrib alpha dIds e.id ∧ e.sparse = rrfContrib (1 - alpha) sIds e.id := by
  intro e he
  have hf := find?_of_mem_nodup he (nodup_fuseIds_fuseScores alpha dIds sIds)
  rw [fuseScores_find? alpha dIds sIds hd hs e.id] at hf
  by_cases hmem : e.id ∈ dIds ∨ e.id ∈ sIds
  · rw [if_pos hmem] at hf
    have h2 : (⟨e.id, rrfContrib alpha dIds e.id,
        rrfContrib (1 - alpha) sIds e.id⟩ : FuseEntry) = e := Option.some.inj hf
    exact ⟨by rw [← h2], by rw [← h2]⟩
  · rw [if_neg hmem] at hf
    cases hf

lemma mem_reciprocalRankFusion {σ τ : Type} {alpha : ℚ} {chunks : List ChunkDict}
    {dense : List (String × σ)} {sparse : List (String × τ)} {topk : ℕ}
    {r : SearchResult} (hr : r ∈ reciprocalRankFusion alpha chunks dense sparse topk) :
    ∃ e ∈ fuseScores alpha (dense.map Prod.fst) (sparse.map Prod.fst),
      ∃ c, lookupChunkLast chunks e.id = some c ∧ r = fuseResult e c := by
  unfold reciprocalRankFusion at hr
  rcases List.mem_filterMap.1 hr with ⟨e, he, hfe⟩
  have he2 : e ∈ fuseScores alpha (dense.map Prod.fst) (sparse.map Prod.fst) := by
    have := List.mem_of_mem_take he
    exact ((List.perm_insertionSort _ _).mem_iff).1 this
  rcases Option.map_eq_some'.1 hfe with ⟨c, hc, hrc⟩
  exact ⟨e, he2, c, hc, hrc.symm⟩

lemma scores_filterMap_fusion (chunks : List ChunkDict) (l : List FuseEntry) :
    (l.filterMap fun e => (lookupChunkLast chunks e.id).map (fuseResult e)).map
        SearchResult.score =
      (l.filter fun e => (lookupChunkLast chunks e.id).isSome).map FuseEntry.rrf := by
  induction l with
  | nil => simp
  | cons e rest ih =>
      cases hc : lookupChunkLast chunks e.id <;>
        simp [List.filterMap_cons, hc, List.filter_cons, fuseResult, ih]

/-- **C1.**  In hybrid search fusion, the fused score of every returned
candidate equals the sum, over the two candidate lists it appears in, of
`weight / (60 + r + 1)` with `r` its 0-based rank in that list, the weight
being `alpha` for the dense list and `1 - alpha` for the sparse list (a
candidate in both lists gets both contributions); the fused candidates are
sorted by this score descending and truncated to `top_k`.  (Stated for
candidate lists without duplicated ids, which is what both retrieval
stages produce.) -/
theorem C1_fused_score_formula {σ τ : Type} (alpha : ℚ) (chunks : List ChunkDict)
    (dense : List (String × σ)) (sparse : List (String × τ)) (topk : ℕ)
    (hd : (dense.map Prod.fst).Nodup) (hs : (sparse.map Prod.fst).Nodup) :
    (∀ r ∈ reciprocalRankFusion alpha chunks dense sparse topk,
        r.score = rrfContrib alpha (dense.map Prod.fst) r.chunkId
          + rrfContrib (1 - alpha) (sparse.map Prod.fst) r.chunkId)
    ∧ List.Sorted (fun a b : ℚ => b ≤ a)
        ((reciprocalRankFusion alpha chunks dense sparse topk).map SearchResult.score)
    ∧ (reciprocalRankFusion alpha chunks dense sparse topk).length ≤ topk := by
  haveI hTot : IsTotal FuseEntry (fun a b => b.rrf ≤ a.rrf) :=
    ⟨fun a b => (le_total b.rrf a.rrf).imp id id⟩
  haveI hTrans : IsTrans FuseEntry (fun a b => b.rrf ≤ a.rrf) :=
    ⟨fun _ _ _ hab hbc => le_trans hbc hab⟩
  refine ⟨?_, ?_, ?_⟩
  · intro r hr
    rcases mem_reciprocalRankFusion hr with ⟨e, he, c, hc, rfl⟩
    rcases mem_fuseScores_spec alpha _ _ hd hs e he with ⟨h1, h2⟩
    show e.rrf = _
    rw [FuseEntry.rrf, h1, h2]
    rfl
  · unfold reciprocalRankFusion
    rw [scores_filterMap_fusion]
    have hsorted : List.Sorted (fun a b : FuseEntry => b.rrf ≤ a.rrf)
        (List.insertionSort (fun a b : FuseEntry => b.rrf ≤ a.rrf)
          (fuseScores alpha (dense.map Prod.fst) (sparse.map Prod.fst))) :=
      List.sorted_insertionSort _ _
    have h2 := (hsorted.sublist (List.take_sublist topk _)).filter
      (fun e => (lookupChunkLast chunks e.id).isSome)
    exact h2.map FuseEntry.rrf (fun a b hab => hab)
  · unfold reciprocalRankFusion
    calc (((List.insertionSort (fun a b : FuseEntry => b.rrf ≤ a.rrf)
          (fuseScores alpha (dense.map Prod.fst) (sparse.map Prod.fst))).take
            topk).filterMap fun e => (lookupChunkLast chunks e.id).map (fuseResult e)).length
        ≤ ((List.insertionSort (fun a b : FuseEntry => b.rrf ≤ a.rrf)
          (fuseScores alpha (dense.map Prod.fst) (sparse.map Prod.fst))).take topk).length :=
          List.length_filterMap_le _ _
      _ ≤ topk := by
          rw [List.length_take]
          exact min_le_left _ _

/-- Concrete witness for C1. -/
def fusionChunksEx : List ChunkDict :=
  [⟨"a", "content a", "slug", "Title", none, ["x"], ""⟩,
   ⟨"b", "content b", "slug", "Title", none, [], ""⟩,
   ⟨"c", "content c", "slug", "Title", none, ["y"], ""⟩]

theorem C1_fused_score_formula_witness :
    (∀ r ∈ reciprocalRankFusion (7/10) fusionChunksEx
        ([("a", (1 : ℚ)), ("b", 2)]) ([("b", (1 : ℚ)), ("c", 2)]) 10,
        r.score = rrfContrib (7/10) ((([("a", (1 : ℚ)), ("b", 2)]) : List (String × ℚ)).map Prod.fst) r.chunkId
          + rrfContrib (1 - 7/10) ((([("b", (1 : ℚ)), ("c", 2)]) : List (String × ℚ)).map Prod.fst) r.chunkId)
    ∧ List.Sorted (fun a b : ℚ => b ≤ a)
        ((reciprocalRankFusion (7/10) fusionChunksEx
          ([("a", (1 : ℚ)), ("b", 2)]) ([("b", (1 : ℚ)), ("c", 2)]) 10).map SearchResult.score)
    ∧ (reciprocalRankFusion (7/10) fusionChunksEx
        ([("a", (1 : ℚ)), ("b", 2)]) ([("b", (1 : ℚ)), ("c", 2)]) 10).length ≤ 10 :=
  C1_fused_score_formula (7/10) fusionChunksEx _ _ 10 (by decide) (by decide)

/-- **C10.**  During fusion, a candidate id absent from the engine's chunk
table is silently dropped (so fewer than `top_k` results can come back even
though `top_k` or more candidates were fused), and every returned result's
chunk id resolves to a stored chunk record.  The second conjunct exhibits
the shortfall: two candidates are fused with `top_k = 2`, but the unknown
id `"zzz"` is dropped and only one result is returned. -/
theorem C10_unresolved_candidates :
    (∀ (σ τ : Type) (alpha : ℚ) (chunks : List ChunkDict) (dense : List (String × σ))
        (sparse : List (String × τ)) (topk : ℕ),
        ∀ r ∈ reciprocalRankFusion alpha chunks dense sparse topk,
          ∃ c ∈ chunks, c.chunkId = r.chunkId)
    ∧ (reciprocalRankFusion (7/10) fusionChunksEx
          ([("a", (1 : ℚ)), ("zzz", 2)]) ([] : List (String × ℚ)) 2).length = 1
    ∧ (fuseScores (7/10) ["a", "zzz"] []).length = 2 := by
  refine ⟨?_, ?_, ?_⟩
  · intro σ τ alpha chunks dense sparse topk r hr
    rcases mem_reciprocalRankFusion hr with ⟨e, _, c, hc, rfl⟩
    refine ⟨c, ?_, ?_⟩
    · have := List.mem_of_find?_eq_some hc
      exact (List.mem_reverse).1 this
    · have := List.find?_some hc
      simpa [fuseResult] using of_decide_eq_true this
  · norm_num +decide [reciprocalRankFusion, fuseScores, upsertDense, upsertSparse,
      List.enum, List.enumFrom, FuseEntry.rrf, List.insertionSort, List.orderedInsert,
      lookupChunkLast, fusionChunksEx, List.find?, List.filterMap_cons, fuseResult]
  · norm_num +decide [fuseScores, upsertDense, upsertSparse, List.enum, List.enumFrom]

theorem C10_unresolved_candidates_witness :
    ∃ c ∈ fusionChunksEx, c.chunkId = "a" := by
  have hmem : (fuseResult ⟨"a", 7/10/61, 0⟩
      ⟨"a", "content a", "slug", "Title", none, ["x"], ""⟩) ∈
        reciprocalRankFusion (7/10) fusionChunksEx
          ([("a", (1 : ℚ)), ("zzz", 2)]) ([] : List (String × ℚ)) 2 := by
    norm_num +decide [reciprocalRankFusion, fuseScores, upsertDense, upsertSparse,
      List.enum, List.enumFrom, FuseEntry.rrf, List.insertionSort, List.orderedInsert,
      lookupChunkLast, fusionChunksEx, List.find?, List.filterMap_cons, fuseResult]
  exact C10_unresolved_candidates.1 ℚ ℚ (7/10) fusionChunksEx
    ([("a", (1 : ℚ)), ("zzz", 2)]) ([] : List (String × ℚ)) 2 _ hmem

/-- The query-term set is non-empty iff the query has a non-whitespace
character; this is the divisor `len(query_terms)` of the rerank stage. -/
def rerankBlendScore (qTerms : List String) (r : SearchResult) : ℚ :=
  r.score * (2/5)
    + ((interCount qTerms (termSetOf r.content) : ℚ) / (qTerms.length : ℚ)) * (3/10)
    + ((interCount qTerms (termSetOf r.postTitle) : ℚ) / (qTerms.length : ℚ)) * (1/5)
    + (if pyTruthy r.sectionHeading then
        ((interCount qTerms (termSetOf (r.sectionHeading.getD "")) : ℚ)
          / (qTerms.length : ℚ)) * (1/20)
      else 0)

lemma rerankOne_eq_blend (qTerms : List String) (r : SearchResult) :
    rerankOne qTerms r = { r with score := rerankBlendScore qTerms r } := by
  cases hpt : pyTruthy r.sectionHeading <;>
    · simp only [rerankOne, rerankBlendScore, hpt, if_false, if_true, Bool.false_eq_true]
      congr 1
      ring

/-- **C2 (amended).**  When rerank is requested with a non-empty query term
set, every surviving candidate's final score is
`0.4 · fused + 0.3 · contentFrac + 0.2 · titleFrac + 0.05 · sectionFrac`
(the section term only when a truthy section heading exists): the section
overlap fraction is multiplied by `0.5` *and* by the blend weight `0.1`,
so its effective weight is `1/20`, not the `0.1` the claim states.  The
results are then re-sorted by this score descending and truncated to
`top_k`. -/
theorem C2_rerank_blend (query : String) (results : List SearchResult) (topk : ℕ)
    (hq : termSetOf query ≠ []) :
    ∃ out, rerankResults query results topk = .ok out
      ∧ (∀ r' ∈ out, ∃ r ∈ results, r' = { r with score := rerankBlendScore (termSetOf query) r })
      ∧ List.Sorted (fun a b : ℚ => b ≤ a) (out.map SearchResult.score)
      ∧ out.length ≤ topk := by
  haveI hTot : IsTotal SearchResult (fun a b => b.score ≤ a.score) :=
    ⟨fun a b => (le_total b.score a.score).imp id id⟩
  haveI hTrans : IsTrans SearchResult (fun a b => b.score ≤ a.score) :=
    ⟨fun _ _ _ hab hbc => le_trans hbc hab⟩
  by_cases hres : results.isEmpty
  · refine ⟨[], ?_, by simp, by simp, by simp⟩
    simp [rerankResults, hres]
  · have hqe : (termSetOf query).isEmpty = false := by
      cases hqq : termSetOf query with
      | nil => exact absurd hqq hq
      | cons a l => simp
    refine ⟨(List.insertionSort (fun a b : SearchResult => b.score ≤ a.score)
        (results.map (rerankOne (termSetOf query)))).take topk, ?_, ?_, ?_, ?_⟩
    · simp only [rerankResults, hres, Bool.false_eq_true, if_false, hqe]
    · intro r' hr'
      have h1 : r' ∈ List.insertionSort (fun a b : SearchResult => b.score ≤ a.score)
          (results.map (rerankOne (termSetOf query))) := List.mem_of_mem_take hr'
      have h2 : r' ∈ results.map (rerankOne (termSetOf query)) :=
        ((List.perm_insertionSort _ _).mem_iff).1 h1
      rcases List.mem_map.1 h2 with ⟨r, hrm, hre⟩
      exact ⟨r, hrm, by rw [← hre, rerankOne_eq_blend]⟩
    · have hsorted : List.Sorted (fun a b : SearchResult => b.score ≤ a.score)
        (List.insertionSort (fun a b : SearchResult => b.score ≤ a.score)
          (results.map (rerankOne (termSetOf query)))) := List.sorted_insertionSort _ _
      exact (hsorted.sublist (List.take_sublist _ _)).map SearchResult.score
        (fun a b hab => hab)
    · rw [List.length_take]
      exact min_le_left _ _

/-- Concrete rerank input: fused score 0, and all of content, title and
section heading equal to the one query term. -/
def rerankResultEx : SearchResult :=
  ⟨"a", "aaa", 0, "s", "aaa", some "aaa", [], "/s", "dense"⟩

/-- **C2, counterexample to the claim as stated.**  With query `"aaa"` and a
candidate whose content, title and section heading all contain the query
term, the reranked score is `0.55`, not the
`0.4·0 + 0.3·1 + 0.2·1 + 0.1·1 = 0.6` the claim's formula demands. -/
theorem C2_rerank_counterexample :
    rerankResults "aaa" [rerankResultEx] 5 =
      .ok [{ rerankResultEx with score := 11/20 }]
    ∧ ((11 : ℚ)/20) ≠ (2/5) * 0 + (3/10) * 1 + (1/5) * 1 + (1/10) * 1 := by
  constructor
  · norm_num +decide [rerankResults, rerankOne, termSetOf, interCount, pyLower,
      runsByAux, List.dedup, pyTruthy, List.insertionSort, List.orderedInsert, rerankResultEx]
  · norm_num

theorem C2_rerank_blend_witness :
    ∃ out, rerankResults "aaa" [rerankResultEx] 5 = .ok out
      ∧ (∀ r' ∈ out, ∃ r ∈ [rerankResultEx],
          r' = { r with score := rerankBlendScore (termSetOf "aaa") r })
      ∧ List.Sorted (fun a b : ℚ => b ≤ a) (out.map SearchResult.score)
      ∧ out.length ≤ 5 :=
  C2_rerank_blend "aaa" [rerankResultEx] 5 (by decide)

/-- How many of the five artifact writes land before a failure at the given
step (all of them when the failing step is one of the four compute steps,
which run before any write — in that case the count is 0). -/
def writesBefore : PipelineStep → ℕ
  | .loadPosts | .processPosts | .generateEmbeddings | .buildBm25 => 0
  | .writeChunks => 0
  | .writeEmbeddings => 1
  | .writeMetadata => 2
  | .writeBm25 => 3
  | .writeSummary => 4

/-- **C8 (amended).**  A pipeline run that fails during one of the four
compute steps (load, chunk, embed, BM25 fit) leaves the published artifact
set untouched, because no file is written before `save_artifacts`; but
`save_artifacts` itself writes each artifact directly to its final path in
a fixed order with no staging location or atomic swap, so a failure at the
`k`-th write publishes the first `k - 1` new artifacts next to the old
remainder. -/
theorem C8_no_staging_direct_writes (A : Type) (fs art : DataDir A) (noPosts : Bool) :
    (∀ s, isComputeStep s = true → runPipeline fs art noPosts (some s) = (fs, false))
    ∧ runPipeline fs art true none = (fs, true)
    ∧ runPipeline fs art false none = (writeFirst 5 fs art, true)
    ∧ (∀ s, (runPipeline fs art false (some s)).1 = writeFirst (writesBefore s) fs art) := by
  refine ⟨?_, ?_, ?_, ?_⟩
  · intro s hs
    cases s <;> simp_all [runPipeline, isComputeStep]
  · simp [runPipeline]
  · simp [runPipeline, saveArtifacts, writeFirst]
  · intro s
    cases s <;> simp [runPipeline, saveArtifacts, isComputeStep, writeFirst, writesBefore]

theorem C8_no_staging_direct_writes_witness :
    runPipeline (⟨0, 0, 0, 0, 0⟩ : DataDir ℕ) ⟨1, 1, 1, 1, 1⟩ false
        (some .generateEmbeddings) = (⟨0, 0, 0, 0, 0⟩, false)
    ∧ (runPipeline (⟨0, 0, 0, 0, 0⟩ : DataDir ℕ) ⟨1, 1, 1, 1, 1⟩ false
        (some .writeBm25)).1 = writeFirst 3 ⟨0, 0, 0, 0, 0⟩ ⟨1, 1, 1, 1, 1⟩ :=
  ⟨(C8_no_staging_direct_writes ℕ ⟨0, 0, 0, 0, 0⟩ ⟨1, 1, 1, 1, 1⟩ false).1
      .generateEmbeddings (by decide),
   (C8_no_staging_direct_writes ℕ ⟨0, 0, 0, 0, 0⟩ ⟨1, 1, 1, 1, 1⟩ false).2.2.2 .writeBm25⟩

/-- **C8, counterexample to the claim as stated.**  A failure during the
BM25 write leaves the directory in a mixed state: the chunk list, the dense
matrix and its metadata are already the new versions while the BM25 model
and the summary are still the old ones, so the previously published
artifact set is *not* left unchanged and readers can observe a half-written
set (there is no staging/atomic swap). -/
theorem C8_no_staging_counterexample :
    runPipeline (⟨0, 0, 0, 0, 0⟩ : DataDir ℕ) ⟨1, 1, 1, 1, 1⟩ false (some .writeBm25)
      = (⟨1, 1, 1, 0, 0⟩, false)
    ∧ (⟨1, 1, 1, 0, 0⟩ : DataDir ℕ) ≠ ⟨0, 0, 0, 0, 0⟩
    ∧ (⟨1, 1, 1, 0, 0⟩ : DataDir ℕ) ≠ ⟨1, 1, 1, 1, 1⟩ := by
  refine ⟨by decide, by decide, by decide⟩

/-- **C9 (amended).**  `EmbeddingStore.load` performs no dimension check at
all: it stores the recorded dimension and the loaded matrix exactly as
read, never raises, and never truncates, pads or reshapes — even when the
recorded dimension does not match the matrix's column count or the
provider's output dimension. -/
theorem C9_load_never_checks_dimension (emb : List (List ℝ)) (md : StoreMetaFile) :
    ∃ st, EmbeddingStore.load emb md = .ok st
      ∧ st.dimension = md.dimension
      ∧ st.embeddings = emb
      ∧ st.chunkIds = md.chunkIds
      ∧ st.metadata = md.metadata :=
  ⟨_, rfl, rfl, rfl, rfl, rfl⟩

/-- **C9, counterexample to the claim as stated.**  Loading a store whose
metadata records dimension 3 while the matrix row has 2 columns succeeds
(no explicit error is raised) and the mismatched data is kept as-is. -/
theorem C9_load_mismatch_counterexample :
    EmbeddingStore.load [[(1 : ℝ), 2]] ⟨["c0"], [⟨["t"]⟩], 3⟩ =
      .ok ⟨3, [[(1 : ℝ), 2]], ["c0"], [⟨["t"]⟩]⟩
    ∧ ([(1 : ℝ), 2]).length ≠ 3 := by
  refine ⟨rfl, by simp⟩

/-! ## C5: chunk positions -/

lemma enum_map_add (pos : ℕ) {α : Type} (l : List α) :
    l.enum.map (fun p => pos + p.1) = List.range' pos l.length := by
  have h1 : l.enum.map (fun p => pos + p.1) = (l.enum.map Prod.fst).map (fun x => pos + x) := by
    rw [List.map_map]; rfl
  rw [h1, List.enum_map_fst, ← List.range'_eq_map_range]

lemma createChunks_positions (maxT ovT : ℕ) (content : String) (meta : PostMeta)
    (slug : String) (sh : Option String) (pos : ℕ) :
    (createChunksFromSection maxT ovT content meta slug sh pos).map Chunk.position
      = List.range' pos (createChunksFromSection maxT ovT content meta slug sh pos).length := by
  unfold createChunksFromSection
  by_cases h1 : (pyStrip content).isEmpty
  · simp [h1]
  · by_cases h2 : tokEst (pyStrip content) ≤ maxT
    · simp [h1, h2, mkChunk, List.range']
    · simp only [h1, h2, Bool.false_eq_true, if_false, if_neg]
      rw [List.map_map, List.length_map, List.enum_length]
      exact enum_map_add pos _

/-- The invariant threaded through `chunk_document`: the position counter
equals the number of chunks emitted so far, and the emitted positions are
`0, 1, ..., counter - 1` in order. -/
def chunksInv (acc : List (List Chunk) × ℕ) : Prop :=
  acc.2 = acc.1.flatten.length ∧ acc.1.flatten.map Chunk.position = List.range acc.2

lemma range_append_range' (a b : ℕ) :
    List.range a ++ List.range' a b = List.range (a + b) := by
  rw [List.range_eq_range', List.range_eq_range']
  have := List.range'_append 0 a b 1
  simpa [Nat.add_comm] using this

lemma sectionStep_inv (maxT ovT : ℕ) (meta : PostMeta) (slug : String)
    (sh : Option String) (body : List String) (acc : List (List Chunk) × ℕ)
    (h : chunksInv acc) : chunksInv (sectionStep maxT ovT meta slug sh body acc) := by
  unfold sectionStep
  by_cases hb : (pyStrip (pyJoin "\n" body)).isEmpty
  · simpa [hb] using h
  · rcases h with ⟨h1, h2⟩
    simp only [hb, Bool.false_eq_true, if_false, chunksInv, List.flatten_append,
      List.flatten_cons, List.flatten_nil, List.append_nil, List.length_append, List.map_append]
    constructor
    · rw [h1]
    · rw [h2, createChunks_positions]
      exact range_append_range' _ _

lemma foldl_sectionStep_inv {α : Type} (maxT ovT : ℕ) (meta : PostMeta) (slug : String)
    (f : α → Option String) (g : α → List String) :
    ∀ (l : List α) (acc : List (List Chunk) × ℕ), chunksInv acc →
      chunksInv (l.foldl (fun a x => sectionStep maxT ovT meta slug (f x) (g x) a) acc)
  | [], _, h => h
  | x :: rest, acc, h =>
      foldl_sectionStep_inv maxT ovT meta slug f g rest _
        (sectionStep_inv maxT ovT meta slug (f x) (g x) acc h)

lemma chunkDocumentSections_inv (maxT ovT : ℕ) (content : String) (meta : PostMeta)
    (slug : String) :
    chunksInv (chunkDocumentSections maxT ovT content meta slug,
      (chunkDocumentSections maxT ovT content meta slug).flatten.length) := by
  have main : ∀ (l : List (String × List String)) (acc : List (List Chunk) × ℕ),
      chunksInv acc →
      chunksInv (l.foldl (fun acc sec =>
        let sp3 := splitByHeading isH3Line 4 sec.2
        let acc1 := sectionStep maxT ovT meta slug (some sec.1) sp3.1 acc
        sp3.2.foldl (fun a sub =>
          sectionStep maxT ovT meta slug (some (sec.1 ++ " > " ++ sub.1)) sub.2 a)
          acc1) acc) := by
    intro l
    induction l with
    | nil => intro acc h; exact h
    | cons sec rest ih =>
        intro acc h
        simp only [List.foldl_cons]
        apply ih
        exact foldl_sectionStep_inv maxT ovT meta slug _ _ _ _
          (sectionStep_inv maxT ovT meta slug _ _ acc h)
  have hstart : chunksInv (sectionStep maxT ovT meta slug none
      ((splitByHeading isH2Line 3 ((splitAtChar '\n' content.data).map
        fun l => (⟨l⟩ : String))).1) ([], 0)) :=
    sectionStep_inv maxT ovT meta slug none _ ([], 0) (by constructor <;> simp)
  have hres := main
    ((splitByHeading isH2Line 3 ((splitAtChar '\n' content.data).map
      fun l => (⟨l⟩ : String))).2) _ hstart
  rcases hres with ⟨h1, h2⟩
  constructor
  · rfl
  · show List.map Chunk.position (chunkDocumentSections maxT ovT content meta slug).flatten
      = List.range ((chunkDocumentSections maxT ovT content meta slug).flatten.length)
    have h2' := h2
    rw [h1] at h2'
    exact h2'

/-- **C5.**  For every document, the per-section chunk counts sum to the
total number of chunks, and the `position` fields of the emitted chunks
form the contiguous sequence `0, 1, ..., n-1` in emission order. -/
theorem C5_positions_contiguous (maxT ovT : ℕ) (content : String) (meta : PostMeta)
    (slug : String) :
    ((chunkDocumentSections maxT ovT content meta slug).map List.length).sum
        = (chunkDocument maxT ovT content meta slug).length
    ∧ (chunkDocument maxT ovT content meta slug).map Chunk.position
        = List.range ((chunkDocument maxT ovT content meta slug).length) := by
  constructor
  · rw [chunkDocument, List.length_flatten]
  · have h := (chunkDocumentSections_inv maxT ovT content meta slug).2
    rw [chunkDocument]
    simpa using h

/-! ## C4: chunk token budget -/

/-- The chunker's running estimate for a list of sentences: the sum of the
per-sentence `len(s) // 4` values (this is what `current_tokens` tracks). -/
def sumTok (ss : List String) : ℕ := (ss.map tokEst).sum

lemma overlapPickAux_spec (ovT : ℕ) :
    ∀ (l acc : List String) (tot : ℕ), tot = sumTok acc → tot ≤ ovT →
      (overlapPickAux ovT l acc tot).2 = sumTok (overlapPickAux ovT l acc tot).1
        ∧ (overlapPickAux ovT l acc tot).2 ≤ ovT := by
  intro l
  induction l with
  | nil => intro acc tot h1 h2; exact ⟨h1, h2⟩
  | cons s rest ih =>
      intro acc tot h1 h2
      by_cases hc : tot + tokEst s ≤ ovT
      · simp only [overlapPickAux, hc, if_true]
        exact ih (s :: acc) (tot + tokEst s)
          (by rw [h1]; simp [sumTok, Nat.add_comm]) hc
      · simp only [overlapPickAux, hc, if_false]
        exact ⟨h1, h2⟩

lemma overlapPick_spec (ovT : ℕ) (cur : List String) :
    (overlapPick ovT cur).2 = sumTok (overlapPick ovT cur).1
      ∧ (overlapPick ovT cur).2 ≤ ovT :=
  overlapPickAux_spec ovT cur.reverse [] 0 (by simp [sumTok]) (Nat.zero_le _)

lemma packGo_inv (maxT ovT : ℕ) :
    ∀ (ss : List String) (cur : List String) (curTok : ℕ),
      curTok = sumTok cur →
      (sumTok cur ≤ maxT ∨ sumTok cur.dropLast ≤ ovT) →
      ∀ p ∈ packGo maxT ovT ss cur curTok,
        sumTok p ≤ maxT ∨ sumTok p.dropLast ≤ ovT := by
  intro ss
  induction ss with
  | nil =>
      intro cur curTok h1 h2 p hp
      by_cases hc : cur.isEmpty <;> simp only [packGo, hc, if_true, if_false] at hp
      · simp at hp
      · rcases List.mem_singleton.1 hp with rfl
        exact h2
  | cons s rest ih =>
      intro cur curTok h1 h2 p hp
      by_cases hc : curTok + tokEst s ≤ maxT
      · simp only [packGo, hc, if_true] at hp
        refine ih (cur ++ [s]) (curTok + tokEst s) ?_ ?_ p hp
        · rw [h1]; simp [sumTok]
        · left
          have : sumTok (cur ++ [s]) = curTok + tokEst s := by
            rw [h1]; simp [sumTok]
          rw [this]; exact hc
      · simp only [packGo, hc, if_false] at hp
        rcases List.mem_append.1 hp with hsaved | hrec
        · by_cases hce : cur.isEmpty
          · simp [hce] at hsaved
          · simp only [hce, Bool.false_eq_true, if_false] at hsaved
            rcases List.mem_singleton.1 hsaved with rfl
            exact h2
        · by_cases hov : (ovT > 0 && !cur.isEmpty) = true
          · simp only [hov, if_true] at hrec
            rcases overlapPick_spec ovT cur with ⟨ho1, ho2⟩
            refine ih _ _ ?_ ?_ p hrec
            · rw [ho1]; simp [sumTok]
            · right
              rw [List.dropLast_concat]
              rw [← ho1]; exact ho2
          · simp only [hov, if_false] at hrec
            refine ih [s] (tokEst s) (by simp [sumTok]) ?_ p hrec
            right
            simp [sumTok]

lemma mem_createChunks_shape (maxT ovT : ℕ) (content : String) (meta : PostMeta)
    (slug : String) (sh : Option String) (pos : ℕ) :
    ∀ c ∈ createChunksFromSection maxT ovT content meta slug sh pos,
      (tokEst (pyStrip content) ≤ maxT ∧ c.content = pyStrip content) ∨
      ∃ p ∈ packGo maxT ovT (splitIntoSentences (pyStrip content)) [] 0,
        c.content = pyJoin " " p := by
  intro c hc
  unfold createChunksFromSection at hc
  by_cases h1 : (pyStrip content).isEmpty
  · simp [h1] at hc
  · by_cases h2 : tokEst (pyStrip content) ≤ maxT
    · simp only [h1, h2, Bool.false_eq_true, if_false, if_true] at hc
      rcases List.mem_singleton.1 hc with rfl
      exact Or.inl ⟨h2, rfl⟩
    · simp only [h1, h2, Bool.false_eq_true, if_false] at hc
      rcases List.mem_map.1 hc with ⟨p, hp, rfl⟩
      refine Or.inr ⟨p.2, ?_, rfl⟩
      have := List.enum_map_snd (packGo maxT ovT (splitIntoSentences (pyStrip content)) [] 0)
      rw [← this]
      exact List.mem_map_of_mem Prod.snd hp

lemma sectionStep_budget {P : Chunk → Prop} (maxT ovT : ℕ) (meta : PostMeta) (slug : String)
    (hP : ∀ content sh pos,
      ∀ c ∈ createChunksFromSection maxT ovT content meta slug sh pos, P c)
    (sh : Option String) (body : List String) (acc : List (List Chunk) × ℕ)
    (h : ∀ c ∈ acc.1.flatten, P c) :
    ∀ c ∈ (sectionStep maxT ovT meta slug sh body acc).1.flatten, P c := by
  unfold sectionStep
  by_cases hb : (pyStrip (pyJoin "\n" body)).isEmpty
  · simpa [hb] using h
  · simp only [hb, Bool.false_eq_true, if_false, List.flatten_append, List.flatten_cons,
      List.flatten_nil, List.append_nil]
    intro c hcm
    rcases List.mem_append.1 hcm with hold | hnew
    · exact h c hold
    · exact hP _ sh acc.2 c hnew

/-- **C4 (amended).**  (a) Every sentence group that the greedy packing
loop of `_create_chunks_from_section` emits has per-sentence token
estimates (`len(s) // 4`) summing to at most `max_tokens`, unless all of
its sentences except the last are overlap carry-over fitting the
`overlap_tokens` budget (the last sentence being a single unsplittable
unit, e.g. a fenced code block or any overlong sentence).  (b) Every chunk
the chunker emits for a document is, for its originating section, either
the whole stripped section body (when its estimate fits `max_tokens`) or
the space-join of one of the groups the packing loop actually produced
for that section — so the budget of (a) applies to the chunk's own packed
sentences.  The chunk's recorded `token_count = len(joined content) // 4`
can nevertheless exceed `max_tokens`, because joining adds separator
spaces and the per-sentence floor divisions each discard up to three
characters — see the counterexample. -/
theorem C4_token_budget (maxT ovT : ℕ) (content : String) (meta : PostMeta)
    (slug : String) :
    (∀ (ss : List String), ∀ p ∈ packGo maxT ovT ss [] 0,
      sumTok p ≤ maxT ∨ sumTok p.dropLast ≤ ovT)
    ∧
    (∀ c ∈ chunkDocument maxT ovT content meta slug,
      ∃ sec : String, ∃ sh : Option String, ∃ pos : ℕ,
        c ∈ createChunksFromSection maxT ovT sec meta slug sh pos ∧
        ((tokEst (pyStrip sec) ≤ maxT ∧ c.content = pyStrip sec) ∨
         ∃ p ∈ packGo maxT ovT (splitIntoSentences (pyStrip sec)) [] 0,
           c.content = pyJoin " " p)) := by
  constructor
  · intro ss p hp
    exact packGo_inv maxT ovT ss [] 0 (by simp [sumTok]) (Or.inl (by simp [sumTok])) p hp
  set P : Chunk → Prop := fun c =>
    ∃ sec : String, ∃ sh : Option String, ∃ pos : ℕ,
      c ∈ createChunksFromSection maxT ovT sec meta slug sh pos ∧
      ((tokEst (pyStrip sec) ≤ maxT ∧ c.content = pyStrip sec) ∨
       ∃ p ∈ packGo maxT ovT (splitIntoSentences (pyStrip sec)) [] 0,
         c.content = pyJoin " " p) with hPdef
  have hPcreate : ∀ content' sh pos,
      ∀ c ∈ createChunksFromSection maxT ovT content' meta slug sh pos, P c := by
    intro content' sh pos c hc
    exact ⟨content', sh, pos, hc,
      mem_createChunks_shape maxT ovT content' meta slug sh pos c hc⟩
  have main : ∀ (l : List (String × List String)) (acc : List (List Chunk) × ℕ),
      (∀ c ∈ acc.1.flatten, P c) →
      (∀ c ∈ (l.foldl (fun acc sec =>
        let sp3 := splitByHeading isH3Line 4 sec.2
        let acc1 := sectionStep maxT ovT meta slug (some sec.1) sp3.1 acc
        sp3.2.foldl (fun a sub =>
          sectionStep maxT ovT meta slug (some (sec.1 ++ " > " ++ sub.1)) sub.2 a)
          acc1) acc).1.flatten, P c) := by
    intro l
    induction l with
    | nil => intro acc h; exact h
    | cons sec rest ih =>
        intro acc h
        simp only [List.foldl_cons]
        apply ih
        have hinner : ∀ (l2 : List (String × List String)) (a : List (List Chunk) × ℕ),
            (∀ c ∈ a.1.flatten, P c) →
            ∀ c ∈ (l2.foldl (fun a sub =>
              sectionStep maxT ovT meta slug (some (sec.1 ++ " > " ++ sub.1)) sub.2 a)
                a).1.flatten, P c := by
          intro l2
          induction l2 with
          | nil => intro a h2; exact h2
          | cons sub rest2 ih2 =>
              intro a h2
              simp only [List.foldl_cons]
              exact ih2 _ (sectionStep_budget maxT ovT meta slug hPcreate _ _ a h2)
        exact hinner _ _ (sectionStep_budget maxT ovT meta slug hPcreate _ _ acc h)
  have hstart : ∀ c ∈ (sectionStep maxT ovT meta slug none
      ((splitByHeading isH2Line 3 ((splitAtChar '\n' content.data).map
        fun l => (⟨l⟩ : String))).1) ([], 0)).1.flatten, P c :=
    sectionStep_budget maxT ovT meta slug hPcreate none _ ([], 0) (by simp)
  intro c hc
  exact main _ _ hstart c hc

/-- **C4, counterexample to the claim as stated.**  With `max_tokens = 2`
and no overlap, the document `"aaaaaa. bbbbbb. ccccccccccccc"` yields a
first chunk `"aaaaaa. bbbbbb."` made of two packed sentences whose recorded
`token_count` is `15 // 4 = 3 > 2 = max_tokens`, and that chunk is not a
fenced code block (the sole exception the claim allows). -/
theorem C4_token_budget_counterexample :
    ((chunkDocument 2 0 "aaaaaa. bbbbbb. ccccccccccccc" ⟨"T", []⟩ "p").map
        fun c => (c.content, c.tokenCount)) =
      [("aaaaaa. bbbbbb.", 3), ("ccccccccccccc", 3)]
    ∧ 2 < 3
    ∧ pyStartsWith "aaaaaa. bbbbbb." "```" = false := by
  refine ⟨by decide, by decide, by decide⟩

/-- Witness for C4: the packing loop on the counterexample document's
sentences emits the group `["aaaaaa.", "bbbbbb."]` within budget, and the
first emitted chunk is traced back to its section's actual packing. -/
theorem C4_token_budget_witness :
    (sumTok ["aaaaaa.", "bbbbbb."] ≤ 2 ∨ sumTok (["aaaaaa.", "bbbbbb."].dropLast) ≤ 0)
    ∧ (∃ sec : String, ∃ sh : Option String, ∃ pos : ℕ,
        (chunkDocument 2 0 "aaaaaa. bbbbbb. ccccccccccccc" ⟨"T", []⟩ "p").getD 0
            (mkChunk ⟨"T", []⟩ "p" none 0 "")
          ∈ createChunksFromSection 2 0 sec ⟨"T", []⟩ "p" sh pos ∧
        ((tokEst (pyStrip sec) ≤ 2 ∧
            ((chunkDocument 2 0 "aaaaaa. bbbbbb. ccccccccccccc" ⟨"T", []⟩ "p").getD 0
              (mkChunk ⟨"T", []⟩ "p" none 0 "")).content = pyStrip sec) ∨
         ∃ p ∈ packGo 2 0 (splitIntoSentences (pyStrip sec)) [] 0,
           ((chunkDocument 2 0 "aaaaaa. bbbbbb. ccccccccccccc" ⟨"T", []⟩ "p").getD 0
              (mkChunk ⟨"T", []⟩ "p" none 0 "")).content = pyJoin " " p)) := by
  constructor
  · exact (C4_token_budget 2 0 "aaaaaa. bbbbbb. ccccccccccccc" ⟨"T", []⟩ "p").1
      ["aaaaaa.", "bbbbbb.", "ccccccccccccc"] ["aaaaaa.", "bbbbbb."] (by decide)
  · exact (C4_token_budget 2 0 "aaaaaa. bbbbbb. ccccccccccccc" ⟨"T", []⟩ "p").2 _ (by decide)

/-! ## C3: degenerate hybrid searches -/

lemma store_search_empty (st : EmbeddingStoreModel) (q : List ℝ) (topk : ℕ)
    (tags : Option (List String)) (h : st.embeddings = []) :
    st.search q topk tags = [] := by
  simp [EmbeddingStoreModel.search, h]

lemma bm25_search_no_docs (m : BM25Model) (q : String) (topk : ℕ)
    (h : m.docCount = 0) : m.search q topk = [] := by
  simp [BM25Model.search, h]

lemma rrf_nil {σ τ : Type} (alpha : ℚ) (chunks : List ChunkDict) (topk : ℕ) :
    reciprocalRankFusion alpha chunks ([] : List (String × σ)) ([] : List (String × τ)) topk
      = [] := by
  simp [reciprocalRankFusion, fuseScores]

lemma store_search_no_match (st : EmbeddingStoreModel) (q : List ℝ) (topk : ℕ)
    (ts : List String) (hts : ts ≠ [])
    (h : ∀ m ∈ st.metadata, ∀ t ∈ ts, t ∉ m.tags) :
    st.search q topk (some ts) = [] := by
  unfold EmbeddingStoreModel.search
  by_cases hemb : st.embeddings.isEmpty
  · simp [hemb]
  · have hts2 : ts.isEmpty = false := by
      cases ts with
      | nil => exact absurd rfl hts
      | cons a l => rfl
    have hfil : (List.range st.metadata.length).filter (fun i =>
        ts.any fun t => ((st.metadata.getD i ⟨[]⟩).tags).contains t) = [] := by
      rw [List.filter_eq_nil_iff]
      intro i hi
      have hilt : i < st.metadata.length := List.mem_range.1 hi
      rw [List.getD_eq_getElem st.metadata ⟨[]⟩ hilt]
      simp only [List.any_eq_true, not_exists, not_and, Bool.not_eq_true]
      intro t ht
      have := h (st.metadata[i]) (List.getElem_mem hilt) t ht
      simpa using this
    have hemb' : st.embeddings.isEmpty = false := by
      cases hh : st.embeddings.isEmpty
      · rfl
      · exact absurd hh hemb
    simp only [hemb', Bool.false_eq_true, if_false, Option.getD_some, hts2, Bool.not_false,
      if_true]
    rw [hfil]
    simp

lemma sparseFilterLoop_no_match (chunks : List ChunkDict) (ts : List String)
    (h : ∀ c ∈ chunks, ∀ t ∈ ts, t ∉ c.tags) :
    ∀ (l : List (ℕ × ℝ)) (cap : ℕ), sparseFilterLoop chunks ts true cap l = [] := by
  intro l
  induction l with
  | nil => intro cap; rfl
  | cons p rest ih =>
      intro cap
      rcases p with ⟨i, s⟩
      have hnomatch : (ts.any fun t => ((chunks.getD i defaultChunkDict).tags).contains t) = false := by
        rw [List.any_eq_false]
        intro t ht
        by_cases hi : i < chunks.length
        · rw [List.getD_eq_getElem chunks defaultChunkDict hi]
          have := h (chunks[i]) (List.getElem_mem hi) t ht
          simpa using this
        · rw [List.getD_eq_default chunks defaultChunkDict (Nat.le_of_not_lt hi)]
          simp [defaultChunkDict]
      simp only [sparseFilterLoop, hnomatch, Bool.not_false, Bool.and_true]
      exact ih cap

/-- **C3 (amended).**  Hybrid search on an index with zero chunks, or with a
non-empty tag filter matching no stored chunk, returns an empty result
list without raising, for every query, `top_k` and rerank flag.  (The
claim's third case — an empty *query* — does not hold: see the
counterexample, where an empty query reaches the rerank divisor
`len(query_terms) = 0`.) -/
theorem C3_no_results_cases (e : HybridEngine) (q : String) (topk : ℕ)
    (tags : Option (List String)) (rer : Bool) :
    (e.store.embeddings = [] → e.bm25.docCount = 0 →
      HybridSearch.search e q topk tags rer = .ok [])
    ∧ (∀ ts, tags = some ts → ts ≠ [] →
      (∀ m ∈ e.store.metadata, ∀ t ∈ ts, t ∉ m.tags) →
      (∀ c ∈ e.chunks, ∀ t ∈ ts, t ∉ c.tags) →
      HybridSearch.search e q topk tags rer = .ok []) := by
  constructor
  · intro hemb hdocs
    have hdense : HybridSearch.denseSearch e q (topk * 2) tags = [] := by
      simp [HybridSearch.denseSearch, store_search_empty _ _ _ _ hemb]
    have hsparse : HybridSearch.sparseSearch e q (topk * 2) tags = [] := by
      unfold HybridSearch.sparseSearch
      rw [bm25_search_no_docs _ _ _ hdocs]
      rfl
    unfold HybridSearch.search
    rw [hdense, hsparse]
    dsimp only
    rw [rrf_nil]
    simp
  · intro ts hts htsne hmeta hchunks
    subst hts
    have hdense : HybridSearch.denseSearch e q (topk * 2) (some ts) = [] := by
      simp [HybridSearch.denseSearch, store_search_no_match _ _ _ ts htsne hmeta]
    have huse : (!((some ts).getD []).isEmpty) = true := by
      cases ts with
      | nil => exact absurd rfl htsne
      | cons a l => rfl
    have hsparse : HybridSearch.sparseSearch e q (topk * 2) (some ts) = [] := by
      unfold HybridSearch.sparseSearch
      rw [huse]
      exact sparseFilterLoop_no_match e.chunks ts hchunks _ _
    unfold HybridSearch.search
    rw [hdense, hsparse]
    dsimp only
    rw [rrf_nil]
    simp

lemma bm25_search_empty_query (m : BM25Model) (topk : ℕ) : m.search "" topk = [] := by
  unfold BM25Model.search
  have hfil : ((List.range m.docCount).map fun i => (i, BM25Model.score m "" i)).filter
      (fun p => @decide ((0:ℝ) < p.2) (Classical.propDecidable _)) = [] := by
    rw [List.filter_eq_nil_iff]
    rintro ⟨i, x⟩ hmem hdec
    rcases List.mem_map.1 hmem with ⟨j, _, hj⟩
    have hx : BM25Model.score m "" j = x := congrArg Prod.snd hj
    have h0 : BM25Model.score m "" j = 0 := rfl
    have hlt := of_decide_eq_true hdec
    rw [← hx, h0] at hlt
    exact lt_irrefl _ hlt
  rw [hfil]
  simp

/-- The engine of the C3 counterexample: one stored chunk, a provider that
embeds every query (including the empty one) to `[1, 0]`, and the default
`alpha = 0.7`. -/
noncomputable def engineC3 : HybridEngine :=
  ⟨⟨2, [[1, 0]], ["c0"], [⟨["t1"]⟩]⟩, fun _ => [1, 0],
   BM25.fit (3/2) (3/4) ["hello"], [⟨"c0", "hello", "p", "T", none, ["t1"], ""⟩], 7/10⟩

/-- **C3, counterexample to the claim as stated.**  On a one-chunk index,
hybrid search with an *empty query* and rerank requested raises
`ZeroDivisionError` instead of returning an empty list: the dense stage
still returns a candidate (the empty query is embedded like any other
text), and the rerank stage divides by `len(query_terms) = 0`. -/
theorem C3_empty_query_counterexample :
    HybridSearch.search engineC3 "" 10 none true = .error "ZeroDivisionError" := by
  have hsparse : HybridSearch.sparseSearch engineC3 "" (10 * 2) none = [] := by
    unfold HybridSearch.sparseSearch
    rw [bm25_search_empty_query]
    rfl
  have hd : HybridSearch.denseSearch engineC3 "" (10 * 2) none =
      [("c0", dotp (normalizeVec [1, 0]) (normalizeVec [1, 0]))] := by
    unfold HybridSearch.denseSearch EmbeddingStoreModel.search
    norm_num [engineC3, argsortDesc, List.insertionSort, List.orderedInsert]
  set x : ℝ := dotp (normalizeVec [1, 0]) (normalizeVec [1, 0]) with hxdef
  have hmerged : (reciprocalRankFusion engineC3.alpha engineC3.chunks
      [("c0", x)] ([] : List (String × ℝ)) 10).isEmpty = false := by
    norm_num +decide [reciprocalRankFusion, fuseScores, upsertDense, upsertSparse,
      List.enum, List.enumFrom, FuseEntry.rrf, List.insertionSort, List.orderedInsert,
      lookupChunkLast, engineC3, List.find?, List.filterMap_cons]
  unfold HybridSearch.search
  rw [hd, hsparse]
  dsimp only
  rw [hmerged]
  simp only [Bool.not_false, Bool.and_true, if_true, Bool.and_self]
  unfold rerankResults
  rw [hmerged]
  have hterm : (termSetOf "").isEmpty = true := rfl
  simp [hterm]

/-- The zero-chunk engine used by the C3 witness. -/
noncomputable def engineEmptyIdx : HybridEngine :=
  ⟨⟨2, [], [], []⟩, fun _ => [1, 0], BM25.fit (3/2) (3/4) [], [], 7/10⟩

theorem C3_no_results_cases_witness :
    HybridSearch.search engineEmptyIdx "any query" 5 none true = .ok [] :=
  (C3_no_results_cases engineEmptyIdx "any query" 5 none true).1 rfl rfl

/-! ## C6: BM25 scoring -/

lemma score_foldl_const {g : String → ℝ} :
    ∀ (toks : List String) (acc : ℝ),
      toks.foldl (fun a tok => a + g tok) acc = acc + (toks.map g).sum
  | [], acc => by simp
  | tok :: rest, acc => by
      rw [List.foldl_cons, score_foldl_const rest (acc + g tok)]
      simp [List.map_cons, List.sum_cons]
      ring

/-- One scoring term of `BM25.score` (the body of the loop, as a function
of the token). -/
noncomputable def scoreTerm (m : BM25Model) (docIndex : ℕ) (tok : String) : ℝ :=
  if m.inIdf tok then
    if (m.docFreqs.getD docIndex []).count tok = 0 then 0
    else m.idfVal tok * (m.termWeight docIndex ((m.docFreqs.getD docIndex []).count tok) : ℚ)
  else 0

lemma score_eq_sum_terms (m : BM25Model) (q : String) (d : ℕ) :
    m.score q d = ((bm25Tokenize q).map (scoreTerm m d)).sum := by
  unfold BM25Model.score
  have hstep : ∀ (acc : ℝ) (tok : String),
      (if m.inIdf tok then
        if (m.docFreqs.getD d []).count tok = 0 then acc
        else acc + m.idfVal tok * (m.termWeight d ((m.docFreqs.getD d []).count tok) : ℚ)
      else acc) = acc + scoreTerm m d tok := by
    intro acc tok
    unfold scoreTerm
    by_cases h1 : m.inIdf tok
    · rw [if_pos h1, if_pos h1]
      by_cases h2 : (m.docFreqs.getD d []).count tok = 0
      · rw [if_pos h2, if_pos h2, add_zero]
      · rw [if_neg h2, if_neg h2]
    · rw [if_neg h1, if_neg h1, add_zero]
  calc (bm25Tokenize q).foldl (fun acc tok =>
        if m.inIdf tok then
          if (m.docFreqs.getD d []).count tok = 0 then acc
          else acc + m.idfVal tok * (m.termWeight d ((m.docFreqs.getD d []).count tok) : ℚ)
        else acc) 0
      = (bm25Tokenize q).foldl (fun acc tok => acc + scoreTerm m d tok) 0 := by
        congr 1
        funext acc tok
        exact hstep acc tok
    _ = 0 + ((bm25Tokenize q).map (scoreTerm m d)).sum := score_foldl_const _ 0
    _ = _ := by ring

lemma scoreTerm_zero_of_not_mem (m : BM25Model) (d : ℕ) (tok : String)
    (h : (m.docFreqs.getD d []).count tok = 0) : scoreTerm m d tok = 0 := by
  unfold scoreTerm
  by_cases h1 : m.inIdf tok
  · rw [if_pos h1, if_pos h]
  · rw [if_neg h1]

lemma getD_set_self {α : Type} (l : List α) (i : ℕ) (v dflt : α) (h : i < l.length) :
    (l.set i v).getD i dflt = v := by
  rw [List.getD_eq_getElem _ dflt (by simpa using h)]
  exact List.getElem_set_self _

lemma getD_mem {α : Type} (l : List α) (i : ℕ) (dflt : α) (h : i < l.length) :
    l.getD i dflt ∈ l := by
  rw [List.getD_eq_getElem _ dflt h]
  exact List.getElem_mem h

lemma sum_set_add : ∀ (l : List ℕ) (i : ℕ) (v : ℕ), i < l.length →
    (l.set i v).sum + l.getD i 0 = l.sum + v
  | [], i, v, h => by simp at h
  | x :: rest, 0, v, _ => by
      simp only [List.set_cons_zero, List.sum_cons, List.getD_cons_zero]
      omega
  | x :: rest, i + 1, v, h => by
      have ih := sum_set_add rest i v (by simpa using Nat.lt_of_succ_lt_succ h)
      simp only [List.set_cons_succ, List.sum_cons, List.getD_cons_succ]
      omega

lemma countP_set_eq {α : Type} (p : α → Bool) :
    ∀ (l : List α) (i : ℕ) (v dflt : α), i < l.length →
      p v = p (l.getD i dflt) → (l.set i v).countP p = l.countP p
  | [], i, v, dflt, h, _ => by simp at h
  | x :: rest, 0, v, dflt, _, hp => by
      simp only [List.getD_cons_zero] at hp
      simp [List.set_cons_zero, List.countP_cons, hp]
  | x :: rest, i + 1, v, dflt, h, hp => by
      simp only [List.getD_cons_succ] at hp
      have ih := countP_set_eq p rest i v dflt (by simpa using Nat.lt_of_succ_lt_succ h) hp
      simp [List.set_cons_succ, List.countP_cons, ih]

lemma getD_le_sum : ∀ (l : List ℕ) (i : ℕ), l.getD i 0 ≤ l.sum
  | [], i => by simp
  | x :: rest, 0 => by simp [List.sum_cons]
  | x :: rest, i + 1 => by
      have := getD_le_sum rest i
      simp only [List.getD_cons_succ, List.sum_cons]
      omega

lemma bm25IdfArg_ge_one (N df : ℕ) (h : df ≤ N) : (1 : ℚ) ≤ bm25IdfArg N df := by
  unfold bm25IdfArg
  have h1 : (0:ℚ) ≤ (N : ℚ) - (df : ℚ) + 1/2 := by
    have : (df : ℚ) ≤ (N : ℚ) := by exact_mod_cast h
    linarith
  have h2 : (0:ℚ) < (df : ℚ) + 1/2 := by positivity
  have := div_nonneg h1 (le_of_lt h2)
  linarith

lemma idfVal_nonneg (m : BM25Model) (t : String) (h : m.df t ≤ m.docCount) :
    0 ≤ m.idfVal t := by
  unfold BM25Model.idfVal
  apply Real.log_nonneg
  exact_mod_cast bm25IdfArg_ge_one m.docCount (m.df t) h

lemma termWeight_nonneg (m : BM25Model) (d freq : ℕ)
    (hk1 : 0 < m.k1) (hb0 : 0 ≤ m.b) (hb1 : m.b ≤ 1) (havg : 0 ≤ m.avgdl) :
    0 ≤ m.termWeight d freq := by
  unfold BM25Model.termWeight
  apply div_nonneg
  · positivity
  · have hdl : (0:ℚ) ≤ (m.docLengths.getD d 0 : ℚ) := by positivity
    have : (0:ℚ) ≤ m.b * (m.docLengths.getD d 0 : ℚ) / m.avgdl :=
      div_nonneg (mul_nonneg hb0 hdl) havg
    nlinarith

lemma fit_avgdl_nonneg (k1 b : ℚ) (docs : List String) : 0 ≤ (BM25.fit k1 b docs).avgdl := by
  unfold BM25.fit
  dsimp only
  by_cases h : (docs.map bm25Tokenize).isEmpty
  · simp [h]
  · simp only [h, Bool.false_eq_true, if_false]
    apply div_nonneg
    · positivity
    · positivity

set_option maxHeartbeats 1000000 in
lemma tw_core_mono (k1 b : ℚ) (hk1 : 0 < k1) (hb0 : 0 ≤ b) (hb1 : b ≤ 1)
    (f dl S N Δ : ℚ) (hf : 1 ≤ f) (hdl : f ≤ dl) (hS : dl ≤ S) (hN : 1 ≤ N) (hΔ : 0 ≤ Δ) :
    (f * (k1 + 1)) / (f + k1 * (1 - b + b * dl / (S / N)))
      ≤ ((f + Δ) * (k1 + 1)) / ((f + Δ) + k1 * (1 - b + b * (dl + Δ) / ((S + Δ) / N))) := by
  have hS0 : (0:ℚ) < S := by linarith
  have hSd0 : (0:ℚ) < S + Δ := by linarith
  have hN0 : (0:ℚ) < N := by linarith
  have hdl0 : (0:ℚ) ≤ dl := by linarith
  have hf0 : (0:ℚ) ≤ f := by linarith
  have h1 : b * dl / (S / N) = b * dl * N / S := by field_simp
  have h2 : b * (dl + Δ) / ((S + Δ) / N) = b * (dl + Δ) * N / (S + Δ) := by field_simp
  rw [h1, h2]
  have hinner : 0 ≤ dl * (f + S + Δ) - f * S := by
    nlinarith [mul_le_mul_of_nonneg_right hdl (le_of_lt hS0),
      mul_nonneg hdl0 hf0, mul_nonneg hdl0 hΔ]
  have hkey : f * (b * (dl + Δ) * N) * S ≤ (f + Δ) * (b * dl * N) * (S + Δ) := by
    nlinarith [mul_nonneg (mul_nonneg (mul_nonneg hb0 (le_of_lt hN0)) hΔ) hinner]
  have hmain : f * (b * (dl + Δ) * N / (S + Δ)) ≤ (f + Δ) * (b * dl * N / S) := by
    rw [← mul_div_assoc, ← mul_div_assoc, div_le_div_iff hSd0 hS0]
    nlinarith [hkey]
  set q1 : ℚ := b * dl * N / S with hq1def
  set q2 : ℚ := b * (dl + Δ) * N / (S + Δ) with hq2def
  have hq1 : 0 ≤ q1 :=
    div_nonneg (mul_nonneg (mul_nonneg hb0 hdl0) (le_of_lt hN0)) (le_of_lt hS0)
  have hq2 : 0 ≤ q2 :=
    div_nonneg (mul_nonneg (mul_nonneg hb0 (by linarith)) (le_of_lt hN0)) (le_of_lt hSd0)
  have hD1 : 0 < f + k1 * (1 - b + q1) := by nlinarith
  have hD2 : 0 < (f + Δ) + k1 * (1 - b + q2) := by nlinarith
  rw [div_le_div_iff hD1 hD2]
  have hkk : (0:ℚ) ≤ k1 * (k1 + 1) := by nlinarith
  nlinarith [mul_le_mul_of_nonneg_left hmain hkk,
    mul_nonneg (mul_nonneg hΔ (le_of_lt hk1))
      (by nlinarith : (0:ℚ) ≤ (1 - b) * (k1 + 1))]

lemma scoreTerm_fit_nonneg (k1 b : ℚ) (hk1 : 0 < k1) (hb0 : 0 ≤ b) (hb1 : b ≤ 1)
    (docs : List String) (d : ℕ) (t : String) :
    0 ≤ scoreTerm (BM25.fit k1 b docs) d t := by
  unfold scoreTerm
  set m := BM25.fit k1 b docs with hm
  by_cases h1 : m.inIdf t
  · rw [if_pos h1]
    by_cases h2 : (m.docFreqs.getD d []).count t = 0
    · rw [if_pos h2]
    · rw [if_neg h2]
      apply mul_nonneg
      · apply idfVal_nonneg
        have h3 : m.df t ≤ m.docFreqs.length := List.countP_le_length _
        have h4 : m.docFreqs.length = docs.length := List.length_map _ _
        have h5 : m.docCount = docs.length := rfl
        omega
      · have hw := termWeight_nonneg m d ((m.docFreqs.getD d []).count t)
          hk1 hb0 hb1 (fit_avgdl_nonneg k1 b docs)
        exact_mod_cast hw
  · rw [if_neg h1]

lemma termWeight_eq (m : BM25Model) (d freq : ℕ) :
    m.termWeight d freq = ((freq : ℚ) * (m.k1 + 1))
      / ((freq : ℚ) + m.k1 * (1 - m.b + m.b * (m.docLengths.getD d 0 : ℚ) / m.avgdl)) := rfl

lemma bm25_score_mono_single_term (k1 b : ℚ) (hk1 : 0 < k1) (hb0 : 0 ≤ b) (hb1 : b ≤ 1)
    (docs1 docs2 : List String) (d : ℕ) (t : String) (Δ mu : ℕ) (q : String)
    (hd : d < docs1.length)
    (hmod : docs2.map bm25Tokenize = (docs1.map bm25Tokenize).set d
      ((docs1.map bm25Tokenize).getD d [] ++ List.replicate Δ t))
    (hq : bm25Tokenize q = List.replicate mu t) :
    (BM25.fit k1 b docs1).score q d ≤ (BM25.fit k1 b docs2).score q d := by
  set F1 := docs1.map bm25Tokenize with hF1
  set T1 : List String := F1.getD d [] with hT1
  set T2 : List String := T1 ++ List.replicate Δ t with hT2
  set m1 := BM25.fit k1 b docs1 with hm1
  set m2 := BM25.fit k1 b docs2 with hm2
  have hF1len : F1.length = docs1.length := List.length_map _ _
  have hdF : d < F1.length := by rw [hF1len]; exact hd
  -- structural facts about the two fitted models
  have hdf1 : m1.docFreqs = F1 := rfl
  have hdf2 : m2.docFreqs = F1.set d T2 := hmod
  have hN2 : m2.docCount = m1.docCount := by
    show docs2.length = docs1.length
    have := congrArg List.length hmod
    simpa [hF1len] using this
  have hT2len : T2.length = T1.length + Δ := by
    rw [hT2]
    simp
  have hdF2 : d < (F1.set d T2).length := by simpa using hdF
  have hfreq1 : (m1.docFreqs.getD d []).count t = T1.count t := rfl
  have hfreq2 : (m2.docFreqs.getD d []).count t = T1.count t + Δ := by
    rw [hdf2, getD_set_self _ _ _ _ hdF, hT2]
    simp [List.count_append, List.count_replicate]
  have hL2 : m2.docLengths = (F1.map List.length).set d T2.length := by
    show (docs2.map bm25Tokenize).map List.length = _
    rw [hmod]
    exact List.map_set
  have hdl1 : (F1.map List.length).getD d 0 = T1.length := by
    have h := @List.getD_map _ _ F1 ([] : List String) d List.length
    rw [← hT1] at h
    exact h
  have hS2 : ((F1.map List.length).set d T2.length).sum = (F1.map List.length).sum + Δ := by
    have := sum_set_add (F1.map List.length) d T2.length (by simpa using hdF)
    rw [hdl1, hT2len] at this
    rw [hT2len]
    omega
  have havg1 : m1.avgdl = ((F1.map List.length).sum : ℚ) / (F1.length : ℚ) := by
    show (if F1.isEmpty then 0 else ((F1.map List.length).sum : ℚ) / (F1.length : ℚ)) = _
    have : F1.isEmpty = false := by
      cases hF : F1 with
      | nil => rw [hF] at hdF; simp at hdF
      | cons a l => rfl
    rw [this]
    simp
  have havg2 : m2.avgdl = (((F1.map List.length).sum + Δ : ℕ) : ℚ) / (F1.length : ℚ) := by
    show (if (docs2.map bm25Tokenize).isEmpty then 0
      else (((docs2.map bm25Tokenize).map List.length).sum : ℚ)
        / ((docs2.map bm25Tokenize).length : ℚ)) = _
    rw [hmod]
    have hne : (F1.set d T2).isEmpty = false := by
      cases hF : F1.set d T2 with
      | nil => rw [hF] at hdF2; simp at hdF2
      | cons a l => rfl
    rw [hne]
    simp only [Bool.false_eq_true, if_false]
    rw [List.map_set, hS2, List.length_set]
  -- per-token reduction of the two scores
  rw [score_eq_sum_terms, score_eq_sum_terms, hq, List.map_replicate, List.map_replicate,
    List.sum_replicate, List.sum_replicate]
  apply nsmul_le_nsmul_right
  -- it remains: scoreTerm m1 d t ≤ scoreTerm m2 d t
  rcases Nat.eq_zero_or_pos (T1.count t) with hf1 | hf1
  · -- the term is absent from the original document: old contribution is 0
    rw [scoreTerm_zero_of_not_mem m1 d t (by rw [hfreq1, hf1])]
    rw [hm2]
    exact scoreTerm_fit_nonneg k1 b hk1 hb0 hb1 docs2 d t
  · -- the term occurs: both idf entries exist and agree, term weights compare
    have hmem1 : t ∈ T1 := List.count_pos_iff.mp hf1
    have hmem2 : t ∈ T2 := by rw [hT2]; exact List.mem_append_left _ hmem1
    have hcontT1 : T1.contains t = true := List.elem_eq_true_of_mem hmem1
    have hcontT2 : T2.contains t = true := List.elem_eq_true_of_mem hmem2
    have hin1 : m1.inIdf t = true := by
      rw [BM25Model.inIdf, hdf1, List.any_eq_true]
      exact ⟨T1, by rw [hT1]; exact getD_mem F1 d [] hdF, hcontT1⟩
    have hin2 : m2.inIdf t = true := by
      rw [BM25Model.inIdf, hdf2, List.any_eq_true]
      refine ⟨T2, ?_, hcontT2⟩
      have := getD_mem (F1.set d T2) d [] (by simpa using hdF)
      rwa [getD_set_self _ _ _ _ hdF] at this
    have hdf_eq : m2.df t = m1.df t := by
      rw [BM25Model.df, BM25Model.df, hdf1, hdf2]
      exact countP_set_eq _ F1 d T2 [] hdF (by rw [← hT1, hcontT2, hcontT1])
    have hidf : m1.idfVal t = m2.idfVal t := by
      unfold BM25Model.idfVal
      rw [hdf_eq, hN2]
    have hdf_le2 : m2.df t ≤ m2.docCount := by
      have h3 : m2.df t ≤ m2.docFreqs.length := List.countP_le_length _
      have h4 : m2.docFreqs.length = docs2.length := by
        rw [hm2]; exact List.length_map _ _
      have h5 : m2.docCount = docs2.length := rfl
      omega
    have hidf2_nonneg : 0 ≤ m2.idfVal t := idfVal_nonneg m2 t hdf_le2
    have htw : m1.termWeight d (T1.count t) ≤ m2.termWeight d (T1.count t + Δ) := by
      have hml1d : ((m1.docLengths.getD d 0 : ℕ) : ℚ) = ((T1.length : ℕ) : ℚ) := by
        have : m1.docLengths = F1.map List.length := rfl
        rw [this, hdl1]
      have hml2d : ((m2.docLengths.getD d 0 : ℕ) : ℚ) = ((T1.length + Δ : ℕ) : ℚ) := by
        rw [hL2, getD_set_self _ _ _ _ (by simpa using hdF), hT2len]
      have hk1a : m1.k1 = k1 := rfl
      have hk1b : m2.k1 = k1 := rfl
      have hba : m1.b = b := rfl
      have hbb : m2.b = b := rfl
      rw [termWeight_eq, termWeight_eq, hk1a, hk1b, hba, hbb, hml1d, hml2d, havg1, havg2]
      simp only [Nat.cast_add]
      exact tw_core_mono k1 b hk1 hb0 hb1 ((T1.count t : ℚ)) ((T1.length : ℕ) : ℚ)
        (((F1.map List.length).sum : ℕ) : ℚ) ((F1.length : ℕ) : ℚ) ((Δ : ℕ) : ℚ)
        (by exact_mod_cast hf1)
        (by exact_mod_cast List.count_le_length t T1)
        (by exact_mod_cast hdl1 ▸ getD_le_sum (F1.map List.length) d)
        (Nat.one_le_cast.mpr (by omega))
        (by positivity)
    unfold scoreTerm
    rw [if_pos hin1, if_pos hin2, hfreq1, hfreq2,
      if_neg (by omega : ¬ T1.count t = 0), if_neg (by omega : ¬ T1.count t + Δ = 0)]
    rw [hidf]
    exact mul_le_mul_of_nonneg_left (by exact_mod_cast htw) hidf2_nonneg


/-! ## C6: zero score and frequency monotonicity -/

/-- Corpus for the C6 counterexample: four documents; the query term `ttt`
occurs in every document, `uuu` only in document 0. -/
def docs1C6 : List String :=
  ["uuu ttt fff fff", "ttt ggg ggg ggg", "ttt ggg ggg ggg", "ttt ggg ggg ggg"]

/-- `docs1C6` with twenty extra occurrences of `ttt` appended to document 0
(all other documents and terms unchanged). -/
def docs2C6 : List String :=
  ["uuu ttt fff fff ttt ttt ttt ttt ttt ttt ttt ttt ttt ttt ttt ttt ttt ttt ttt ttt ttt ttt ttt ttt",
   "ttt ggg ggg ggg", "ttt ggg ggg ggg", "ttt ggg ggg ggg"]

lemma score1C6_eval : (BM25.fit (6/5) (3/4) docs1C6).score "ttt uuu" 0
    = Real.log ((10:ℝ)/9) + Real.log ((10:ℝ)/3) := by
  rw [score_eq_sum_terms]
  rw [show bm25Tokenize "ttt uuu" = ["ttt", "uuu"] from by decide]
  simp only [List.map_cons, List.map_nil, List.sum_cons, List.sum_nil]
  norm_num +decide [scoreTerm, BM25Model.inIdf, BM25Model.idfVal, BM25Model.termWeight,
    BM25Model.df, bm25IdfArg, BM25.fit, docs1C6,
    show bm25Tokenize "uuu ttt fff fff" = ["uuu", "ttt", "fff", "fff"] from by decide,
    show bm25Tokenize "ttt ggg ggg ggg" = ["ttt", "ggg", "ggg", "ggg"] from by decide]

lemma score2C6_eval : (BM25.fit (6/5) (3/4) docs2C6).score "ttt uuu" 0
    = Real.log ((10:ℝ)/9) * (154/79) + Real.log ((10:ℝ)/3) * (22/37) := by
  rw [score_eq_sum_terms]
  rw [show bm25Tokenize "ttt uuu" = ["ttt", "uuu"] from by decide]
  simp only [List.map_cons, List.map_nil, List.sum_cons, List.sum_nil]
  norm_num +decide [scoreTerm, BM25Model.inIdf, BM25Model.idfVal, BM25Model.termWeight,
    BM25Model.df, bm25IdfArg, BM25.fit, docs2C6,
    show bm25Tokenize "uuu ttt fff fff ttt ttt ttt ttt ttt ttt ttt ttt ttt ttt ttt ttt ttt ttt ttt ttt ttt ttt ttt ttt" = ["uuu", "ttt", "fff", "fff", "ttt", "ttt", "ttt", "ttt", "ttt", "ttt", "ttt", "ttt", "ttt", "ttt", "ttt", "ttt", "ttt", "ttt", "ttt", "ttt", "ttt", "ttt", "ttt", "ttt"] from by decide,
    show bm25Tokenize "ttt ggg ggg ggg" = ["ttt", "ggg", "ggg", "ggg"] from by decide]

/-- C6 (counterexample): increasing a single term's frequency in one document
(holding all other documents and terms fixed) CAN strictly decrease that
document's refitted score for a query containing that term. `docs2C6` is
`docs1C6` with twenty extra `ttt` tokens in document 0, the query `"ttt uuu"`
contains `ttt`, yet document 0's score strictly drops: the longer document is
penalised on the query's other term `uuu` (and `ttt` carries a far smaller
idf), so the claim's unrestricted monotonicity is false. -/
theorem C6_freq_mono_counterexample :
    docs2C6.map bm25Tokenize = (docs1C6.map bm25Tokenize).set 0
      ((docs1C6.map bm25Tokenize).getD 0 [] ++ List.replicate 20 "ttt")
    ∧ "ttt" ∈ bm25Tokenize "ttt uuu"
    ∧ (BM25.fit (6/5) (3/4) docs2C6).score "ttt uuu" 0
        < (BM25.fit (6/5) (3/4) docs1C6).score "ttt uuu" 0 := by
  refine ⟨by decide, by decide, ?_⟩
  rw [score1C6_eval, score2C6_eval]
  have hL9a : Real.log ((10:ℝ)/9) ≤ 1/9 := by
    have h := Real.log_le_sub_one_of_pos (by norm_num : (0:ℝ) < 10/9)
    linarith
  have hL9b : 0 ≤ Real.log ((10:ℝ)/9) := Real.log_nonneg (by norm_num)
  have hL3 : (0.6931471803 : ℝ) < Real.log ((10:ℝ)/3) := by
    have h2 := Real.log_two_gt_d9
    have h3 : Real.log 2 < Real.log ((10:ℝ)/3) :=
      Real.log_lt_log (by norm_num) (by norm_num)
    linarith
  linarith

/-- C6: (a) `score(query, doc)` is 0 when no query token appears in the
document's token list; (b) refitting after appending extra occurrences of a
term `t` to one document (all other documents and terms fixed) never
decreases that document's score for a query tokenizing to repetitions of
`t` alone — the single-term restriction is required, as
unrestricted monotonicity over all queries containing `t` is false. -/
theorem C6_zero_score_and_single_term_mono :
    (∀ (k1 b : ℚ) (docs : List String) (q : String) (d : ℕ),
      (∀ tok ∈ bm25Tokenize q, tok ∉ (docs.map bm25Tokenize).getD d []) →
      (BM25.fit k1 b docs).score q d = 0)
    ∧
    (∀ (k1 b : ℚ), 0 < k1 → 0 ≤ b → b ≤ 1 →
      ∀ (docs1 docs2 : List String) (d : ℕ) (t : String) (Δ mu : ℕ) (q : String),
      d < docs1.length →
      docs2.map bm25Tokenize = (docs1.map bm25Tokenize).set d
        ((docs1.map bm25Tokenize).getD d [] ++ List.replicate Δ t) →
      bm25Tokenize q = List.replicate mu t →
      (BM25.fit k1 b docs1).score q d ≤ (BM25.fit k1 b docs2).score q d) := by
  constructor
  · intro k1 b docs q d habs
    rw [score_eq_sum_terms]
    apply List.sum_eq_zero
    intro x hx
    rw [List.mem_map] at hx
    obtain ⟨tok, htok, rfl⟩ := hx
    exact scoreTerm_zero_of_not_mem _ d tok (List.count_eq_zero.mpr (habs tok htok))
  · intro k1 b hk1 hb0 hb1 docs1 docs2 d t Δ mu q hd hmod hq
    exact bm25_score_mono_single_term k1 b hk1 hb0 hb1 docs1 docs2 d t Δ mu q hd hmod hq

/-- Witness for C6: concrete instances of both parts. -/
theorem C6_zero_score_and_single_term_mono_witness :
    (BM25.fit (6/5) (3/4) ["hello world"]).score "zzz" 0 = 0
    ∧ (BM25.fit (6/5) (3/4) ["ttt"]).score "ttt" 0
        ≤ (BM25.fit (6/5) (3/4) ["ttt ttt"]).score "ttt" 0 :=
  ⟨C6_zero_score_and_single_term_mono.1 (6/5) (3/4) ["hello world"] "zzz" 0 (by decide),
   C6_zero_score_and_single_term_mono.2 (6/5) (3/4) (by norm_num) (by norm_num) (by norm_num)
     ["ttt"] ["ttt ttt"] 0 "ttt" 1 1 "ttt" (by decide) (by decide) (by decide)⟩

/-! ## C7: tag filtering -/

lemma getD_map_of_lt {α β : Type} (f : α → β) (l : List α) (j : ℕ) (d : α) (d' : β)
    (h : j < l.length) : (l.map f).getD j d' = f (l.getD j d) := by
  rw [List.getD_eq_getElem _ _ (by simpa using h), List.getD_eq_getElem _ _ h]
  simp

lemma map_getD_range {α : Type} (l : List α) (d : α) :
    (List.range l.length).map (fun j => l.getD j d) = l := by
  apply List.ext_getElem (by simp)
  intro i h1 h2
  simp only [List.getElem_map, List.getElem_range]
  exact List.getD_eq_getElem l d h2

lemma getD_range_of_lt (n i : ℕ) (h : i < n) : (List.range n).getD i 0 = i := by
  rw [List.getD_eq_getElem _ _ (by simpa using h)]
  simp

/-- Sorting the tag-eligible rows by similarity (what the filtered dense
search does) agrees with sorting all rows and then discarding the
ineligible ones, provided the similarities are pairwise distinct. -/
lemma argsortDesc_filter_comm (f : ℕ → ℝ) (P : ℕ → Bool) (n : ℕ)
    (hinj : ∀ i, i < n → ∀ j, j < n → f i = f j → i = j) :
    ((argsortDesc (((List.range n).filter P).map f)).map
        fun j => ((List.range n).filter P).getD j 0)
      = (argsortDesc ((List.range n).map f)).filter P := by
  have hrows_nd : ((List.range n).filter P).Nodup := (List.nodup_range n).filter P
  unfold argsortDesc
  rw [List.map_reverse, List.filter_reverse]
  congr 1
  simp only [List.length_map, List.length_range]
  -- notation
  set rows : List ℕ := (List.range n).filter P with hrows
  set rowOf : ℕ → ℕ := fun j => rows.getD j 0 with hrowOf
  set r₁ : ℕ → ℕ → Prop := fun a b => (rows.map f).getD a 0 ≤ (rows.map f).getD b 0 with hr₁
  set r₂ : ℕ → ℕ → Prop :=
    fun a b => (((List.range n).map f)).getD a 0 ≤ (((List.range n).map f)).getD b 0 with hr₂
  set L₁ : List ℕ :=
    @List.insertionSort ℕ r₁ (fun _ _ => Classical.propDecidable _) (List.range rows.length)
    with hL₁
  set L₂ : List ℕ :=
    @List.insertionSort ℕ r₂ (fun _ _ => Classical.propDecidable _) (List.range n) with hL₂
  set s : ℕ → ℕ → Prop := fun a b => f a < f b ∨ a = b with hs
  haveI : IsAntisymm ℕ s := by
    constructor
    intro a b hab hba
    rcases hab with h | h
    · rcases hba with h' | h'
      · exact absurd (lt_trans h h') (lt_irrefl _)
      · exact h'.symm
    · exact h
  -- permutations
  have hperm₁ : List.Perm L₁ (List.range rows.length) :=
    @List.perm_insertionSort ℕ r₁ (fun _ _ => Classical.propDecidable _) _
  have hperm₂ : List.Perm L₂ (List.range n) :=
    @List.perm_insertionSort ℕ r₂ (fun _ _ => Classical.propDecidable _) _
  have hpermA : List.Perm (L₁.map rowOf) rows := by
    have h1 : List.Perm (L₁.map rowOf) ((List.range rows.length).map rowOf) := hperm₁.map rowOf
    have h2 : (List.range rows.length).map rowOf = rows := map_getD_range rows 0
    rwa [h2] at h1
  have hpermB : List.Perm (L₂.filter P) rows := hperm₂.filter P
  have hpermAB : List.Perm (L₁.map rowOf) (L₂.filter P) := hpermA.trans hpermB.symm
  -- membership bounds
  have hmemL₁ : ∀ j ∈ L₁, j < rows.length := by
    intro j hj
    have := hperm₁.mem_iff.mp hj
    simpa using this
  have hmemA : ∀ x ∈ L₁.map rowOf, x ∈ rows := fun x hx => hpermA.mem_iff.mp hx
  have hmemB : ∀ x ∈ L₂.filter P, x ∈ rows := fun x hx => hpermB.mem_iff.mp hx
  have hrows_lt : ∀ x ∈ rows, x < n := by
    intro x hx
    have := (List.mem_filter.mp hx).1
    simpa using this
  -- nodup
  have hndA : (L₁.map rowOf).Nodup := hpermA.nodup_iff.mpr hrows_nd
  have hndB : (L₂.filter P).Nodup := hpermB.nodup_iff.mpr hrows_nd
  -- sortedness with respect to s
  haveI ht₁ : IsTotal ℕ r₁ := ⟨fun a b => le_total _ _⟩
  haveI htr₁ : IsTrans ℕ r₁ := ⟨fun a b c hab hbc => le_trans hab hbc⟩
  haveI ht₂ : IsTotal ℕ r₂ := ⟨fun a b => le_total _ _⟩
  haveI htr₂ : IsTrans ℕ r₂ := ⟨fun a b c hab hbc => le_trans hab hbc⟩
  have hsort₁ : L₁.Sorted r₁ :=
    @List.sorted_insertionSort ℕ r₁ (fun _ _ => Classical.propDecidable _) ht₁ htr₁ _
  have hsort₂ : L₂.Sorted r₂ :=
    @List.sorted_insertionSort ℕ r₂ (fun _ _ => Classical.propDecidable _) ht₂ htr₂ _
  have hsortA : (L₁.map rowOf).Sorted s := by
    rw [List.Sorted, List.pairwise_map]
    have hcomb : L₁.Pairwise fun a b => r₁ a b ∧ a ≠ b := hsort₁.and (hperm₁.nodup_iff.mpr (List.nodup_range _))
    refine hcomb.imp_of_mem ?_
    intro a b ha hb hab
    have haL : a < rows.length := hmemL₁ a ha
    have hbL : b < rows.length := hmemL₁ b hb
    have hfa : (rows.map f).getD a 0 = f (rowOf a) := getD_map_of_lt f rows a 0 0 haL
    have hfb : (rows.map f).getD b 0 = f (rowOf b) := getD_map_of_lt f rows b 0 0 hbL
    have hle : f (rowOf a) ≤ f (rowOf b) := by
      have := hab.1
      rw [hr₁] at this
      rwa [hfa, hfb] at this
    rcases eq_or_lt_of_le hle with heq | hlt
    · exfalso
      have hma : rowOf a ∈ rows := getD_mem rows a 0 haL
      have hmb : rowOf b ∈ rows := getD_mem rows b 0 hbL
      have hrab : rows.getD a 0 = rows.getD b 0 :=
        hinj _ (hrows_lt _ hma) _ (hrows_lt _ hmb) heq
      have : a = b := by
        rw [List.getD_eq_getElem _ _ haL, List.getD_eq_getElem _ _ hbL] at hrab
        exact (List.Nodup.getElem_inj_iff hrows_nd).mp hrab
      exact hab.2 this
    · exact Or.inl hlt
  have hsortB : (L₂.filter P).Sorted s := by
    have hf₂ : (L₂.filter P).Sorted r₂ := List.Sorted.filter P hsort₂
    have hcomb : (L₂.filter P).Pairwise fun a b => r₂ a b ∧ a ≠ b := hf₂.and hndB
    refine hcomb.imp_of_mem ?_
    intro a b ha hb hab
    have haN : a < n := hrows_lt _ (hmemB a ha)
    have hbN : b < n := hrows_lt _ (hmemB b hb)
    have hfa : ((List.range n).map f).getD a 0 = f a := by
      rw [getD_map_of_lt f (List.range n) a 0 0 (by simpa using haN), getD_range_of_lt n a haN]
    have hfb : ((List.range n).map f).getD b 0 = f b := by
      rw [getD_map_of_lt f (List.range n) b 0 0 (by simpa using hbN), getD_range_of_lt n b hbN]
    have hle : f a ≤ f b := by
      have := hab.1
      rw [hr₂] at this
      rwa [hfa, hfb] at this
    rcases eq_or_lt_of_le hle with heq | hlt
    · exact Or.inr (hinj _ haN _ hbN heq)
    · exact Or.inl hlt
  exact List.eq_of_perm_of_sorted hpermAB hsortA hsortB

/-- The filtered dense search equals the full unfiltered ranking restricted
to tag-eligible rows and truncated, when the metadata table matches the
embedding matrix and the similarities are pairwise distinct. -/
lemma mem_argsortDesc_lt (sims : List ℝ) (p : ℕ) (hp : p ∈ argsortDesc sims) :
    p < sims.length := by
  unfold argsortDesc at hp
  rw [List.mem_reverse] at hp
  have h1 := (@List.perm_insertionSort ℕ (fun a b => sims.getD a 0 ≤ sims.getD b 0)
    (fun _ _ => Classical.propDecidable _) (List.range sims.length)).mem_iff.mp hp
  simpa using h1

set_option maxHeartbeats 1000000 in
lemma dense_search_filter_eq (st : EmbeddingStoreModel) (q : List ℝ) (topk : ℕ)
    (ts : List String) (hts : ts ≠ [])
    (hmeta : st.metadata.length = st.embeddings.length)
    (hinj : ∀ i, i < st.embeddings.length → ∀ j, j < st.embeddings.length →
      dotp (normalizeVec (st.embeddings.getD i [])) (normalizeVec q)
        = dotp (normalizeVec (st.embeddings.getD j [])) (normalizeVec q) → i = j) :
    st.search q topk (some ts)
      = ((st.search q st.embeddings.length none).filter
          fun h => ts.any fun t => h.meta.tags.contains t).take topk := by
  classical
  set n : ℕ := st.embeddings.length with hn
  set f : ℕ → ℝ := fun i => dotp (normalizeVec (st.embeddings.getD i [])) (normalizeVec q)
    with hf
  set P : ℕ → Bool := fun i => ts.any fun t => ((st.metadata.getD i ⟨[]⟩).tags).contains t
    with hP
  set H : ℕ → DenseHit := fun row =>
    { chunkId := st.chunkIds.getD row ""
      score := f row
      meta := st.metadata.getD row ⟨[]⟩ } with hH
  by_cases hemp : st.embeddings.isEmpty
  · unfold EmbeddingStoreModel.search
    rw [if_pos hemp, if_pos hemp]
    simp
  · have hts' : ts.isEmpty = false := by simpa using hts
    -- evaluate the unfiltered full search
    have hunf : st.search q n none = (argsortDesc ((List.range n).map f)).map H := by
      unfold EmbeddingStoreModel.search
      rw [if_neg hemp]
      simp only [Option.getD_none, List.isEmpty_nil, Bool.not_true, Bool.false_and,
        Bool.false_eq_true, if_false]
      rw [← hn, ← hf]
      have hlen : (argsortDesc ((List.range n).map f)).length = n := by
        unfold argsortDesc
        rw [List.length_reverse, List.length_insertionSort, List.length_range,
          List.length_map, List.length_range]
      rw [List.take_of_length_le (le_of_eq hlen)]
      apply List.map_congr_left
      intro p hp
      have hpn : p < n := by simpa using mem_argsortDesc_lt _ p hp
      rw [hH]
      have e1 : (List.range n).getD p 0 = p := getD_range_of_lt n p hpn
      have e2 : ((List.range n).map f).getD p 0 = f p := by
        rw [getD_map_of_lt f (List.range n) p 0 0 (by simpa using hpn), e1]
      rw [e1, e2]
    by_cases hrempty : ((List.range n).filter P).isEmpty
    · -- no eligible row: both sides are empty
      have hPfalse : ∀ i ∈ List.range n, P i = false := by
        intro i hi
        have h0 : (List.range n).filter P = [] := by
          simpa [List.isEmpty_iff] using hrempty
        have := List.filter_eq_nil_iff.mp h0 i hi
        simpa using this
      have hLHS : st.search q topk (some ts) = [] := by
        unfold EmbeddingStoreModel.search
        rw [if_neg hemp]
        simp only [Option.getD_some, hts', Bool.not_false, if_true, Bool.true_and]
        rw [if_pos]
        rw [← hP, hmeta]
        exact hrempty
      have hRHS : (st.search q n none).filter
          (fun h => ts.any fun t => h.meta.tags.contains t) = [] := by
        rw [hunf, List.filter_map]
        have h1 : (argsortDesc ((List.range n).map f)).filter
            ((fun h : DenseHit => ts.any fun t => h.meta.tags.contains t) ∘ H) = [] := by
          apply List.filter_eq_nil_iff.mpr
          intro p hp
          have hpn : p < n := by simpa using mem_argsortDesc_lt _ p hp
          have := hPfalse p (by simpa using hpn)
          simp only [hP] at this
          simp only [Function.comp_apply, hH]
          rw [this]
          simp
        rw [h1]
        simp
      rw [hLHS, hRHS]
      simp
    · -- eligible rows exist: reduce both sides to the commuted sorted row list
      have hLHS : st.search q topk (some ts)
          = (((argsortDesc (((List.range n).filter P).map f)).map
              fun j => ((List.range n).filter P).getD j 0).map H).take topk := by
        unfold EmbeddingStoreModel.search
        rw [if_neg hemp]
        simp only [Option.getD_some, hts', Bool.not_false, if_true, Bool.true_and]
        rw [← hP, hmeta, ← hf]
        rw [if_neg (by simpa using hrempty)]
        rw [List.map_map, ← List.map_take]
        apply List.map_congr_left
        intro p hp
        have hpm : p < ((List.range n).filter P).length := by
          simpa using mem_argsortDesc_lt _ p (List.mem_of_mem_take hp)
        have e2 : (((List.range n).filter P).map f).getD p 0
            = f (((List.range n).filter P).getD p 0) :=
          getD_map_of_lt f _ p 0 0 hpm
        simp only [Function.comp, hH]
        rw [e2]
      rw [hLHS, hunf, List.filter_map]
      have hPH : ((fun h : DenseHit => ts.any fun t => h.meta.tags.contains t) ∘ H) = P := by
        funext i
        simp [hH, hP]
      rw [hPH, ← argsortDesc_filter_comm f P n hinj]

/-- Every hit of the filtered dense search carries at least one filter tag. -/
lemma dense_search_tags_subset (st : EmbeddingStoreModel) (q : List ℝ) (topk : ℕ)
    (ts : List String) (hts : ts ≠ []) (h : DenseHit)
    (hmem : h ∈ st.search q topk (some ts)) :
    (ts.any fun t => h.meta.tags.contains t) = true := by
  classical
  unfold EmbeddingStoreModel.search at hmem
  by_cases hemp : st.embeddings.isEmpty
  · rw [if_pos hemp] at hmem
    simp at hmem
  · rw [if_neg hemp] at hmem
    have hts' : ts.isEmpty = false := by simpa using hts
    simp only [Option.getD_some, hts', Bool.not_false, if_true, Bool.true_and] at hmem
    set P : ℕ → Bool := fun i => ts.any fun t => ((st.metadata.getD i ⟨[]⟩).tags).contains t
      with hP
    set rows : List ℕ := (List.range st.metadata.length).filter P with hrows
    by_cases hrempty : rows.isEmpty
    · rw [if_pos hrempty] at hmem
      simp at hmem
    · rw [if_neg hrempty] at hmem
      obtain ⟨p, hp, hpe⟩ := List.mem_map.mp hmem
      have hpm : p < rows.length := by
        simpa using mem_argsortDesc_lt _ p (List.mem_of_mem_take hp)
      have hrow_mem : rows.getD p 0 ∈ rows := getD_mem rows p 0 hpm
      have hProw : P (rows.getD p 0) = true := (List.mem_filter.mp hrow_mem).2
      have hmeta_eq : h.meta = st.metadata.getD (rows.getD p 0) ⟨[]⟩ := by
        rw [← hpe]
      rw [hmeta_eq]
      simpa [hP] using hProw

/-- Every result emitted by the sparse filter loop (with the tag filter
active) comes from a chunk carrying at least one filter tag. -/
lemma sparseFilterLoop_tags (chunks : List ChunkDict) (ts : List String) :
    ∀ (l : List (ℕ × ℝ)) (cap : ℕ) (cid : String) (sc : ℝ),
    (cid, sc) ∈ sparseFilterLoop chunks ts true cap l →
    ∃ c : ChunkDict, (c ∈ chunks ∨ c = defaultChunkDict) ∧ c.chunkId = cid ∧
      (ts.any fun t => c.tags.contains t) = true := by
  intro l
  induction l with
  | nil =>
      intro cap cid sc hmem
      simp [sparseFilterLoop] at hmem
  | cons hd rest ih =>
      intro cap cid sc hmem
      obtain ⟨i, s⟩ := hd
      rw [sparseFilterLoop] at hmem
      set c := chunks.getD i defaultChunkDict with hc
      have hcmem : c ∈ chunks ∨ c = defaultChunkDict := by
        by_cases hi : i < chunks.length
        · exact Or.inl (getD_mem chunks i defaultChunkDict hi)
        · right
          rw [hc]
          exact List.getD_eq_default chunks defaultChunkDict (by omega)
      by_cases htag : (ts.any fun t => c.tags.contains t) = true
      · rw [if_neg (by rw [Bool.true_and, htag]; simp)] at hmem
        by_cases hcap : cap ≤ 1
        · rw [if_pos hcap] at hmem
          have : cid = c.chunkId ∧ sc = s := by
            have := List.mem_singleton.mp hmem
            exact ⟨congrArg Prod.fst this, congrArg Prod.snd this⟩
          exact ⟨c, hcmem, this.1.symm, htag⟩
        · rw [if_neg hcap] at hmem
          rcases List.mem_cons.mp hmem with heq | htl
          · have : cid = c.chunkId ∧ sc = s :=
              ⟨congrArg Prod.fst heq, congrArg Prod.snd heq⟩
            exact ⟨c, hcmem, this.1.symm, htag⟩
          · exact ih (cap - 1) cid sc htl
      · have hX : (ts.any fun t => c.tags.contains t) = false := by
          revert htag
          cases ts.any fun t => c.tags.contains t <;> simp
        rw [if_pos (by rw [Bool.true_and, hX]; simp)] at hmem
        exact ih cap cid sc hmem

/-- Corpus for the C7 counterexample: three documents all containing the
query term `qqq`; only the weakest-scoring chunk is tagged. -/
def docsC7 : List String := ["qqq qqq qqq qqq", "qqq qqq", "qqq"]

def chunksC7 : List ChunkDict :=
  [⟨"c0", "qqq qqq qqq qqq", "p", "T", none, [], "#a"⟩,
   ⟨"c1", "qqq qqq", "p", "T", none, [], "#b"⟩,
   ⟨"c2", "qqq", "p", "T", none, ["t"], "#c"⟩]

/-- Engine for the C7 counterexample (the dense side is empty, so hybrid
sparse retrieval is exercised in isolation). -/
def engC7 : HybridEngine :=
  { store := ⟨0, [], [], []⟩
    embedQuery := fun _ => []
    bm25 := BM25.fit (6/5) (3/4) docsC7
    chunks := chunksC7
    alpha := 7/10 }

lemma scoreC7_0 : (BM25.fit (6/5) (3/4) docsC7).score "qqq" 0
    = Real.log ((8:ℝ)/7) * (616/409) := by
  rw [score_eq_sum_terms]
  rw [show bm25Tokenize "qqq" = ["qqq"] from by decide]
  simp only [List.map_cons, List.map_nil, List.sum_cons, List.sum_nil]
  norm_num +decide [scoreTerm, BM25Model.inIdf, BM25Model.idfVal, BM25Model.termWeight,
    BM25Model.df, bm25IdfArg, BM25.fit, docsC7,
    show bm25Tokenize "qqq qqq qqq qqq" = ["qqq", "qqq", "qqq", "qqq"] from by decide,
    show bm25Tokenize "qqq qqq" = ["qqq", "qqq"] from by decide,
    show bm25Tokenize "qqq" = ["qqq"] from by decide]

lemma scoreC7_1 : (BM25.fit (6/5) (3/4) docsC7).score "qqq" 1
    = Real.log ((8:ℝ)/7) * (308/215) := by
  rw [score_eq_sum_terms]
  rw [show bm25Tokenize "qqq" = ["qqq"] from by decide]
  simp only [List.map_cons, List.map_nil, List.sum_cons, List.sum_nil]
  norm_num +decide [scoreTerm, BM25Model.inIdf, BM25Model.idfVal, BM25Model.termWeight,
    BM25Model.df, bm25IdfArg, BM25.fit, docsC7,
    show bm25Tokenize "qqq qqq qqq qqq" = ["qqq", "qqq", "qqq", "qqq"] from by decide,
    show bm25Tokenize "qqq qqq" = ["qqq", "qqq"] from by decide,
    show bm25Tokenize "qqq" = ["qqq"] from by decide]

lemma scoreC7_2 : (BM25.fit (6/5) (3/4) docsC7).score "qqq" 2
    = Real.log ((8:ℝ)/7) * (77/59) := by
  rw [score_eq_sum_terms]
  rw [show bm25Tokenize "qqq" = ["qqq"] from by decide]
  simp only [List.map_cons, List.map_nil, List.sum_cons, List.sum_nil]
  norm_num +decide [scoreTerm, BM25Model.inIdf, BM25Model.idfVal, BM25Model.termWeight,
    BM25Model.df, bm25IdfArg, BM25.fit, docsC7,
    show bm25Tokenize "qqq qqq qqq qqq" = ["qqq", "qqq", "qqq", "qqq"] from by decide,
    show bm25Tokenize "qqq qqq" = ["qqq", "qqq"] from by decide,
    show bm25Tokenize "qqq" = ["qqq"] from by decide]

lemma bm25C7_search (k : ℕ) : (BM25.fit (6/5) (3/4) docsC7).search "qqq" k
    = [(0, (BM25.fit (6/5) (3/4) docsC7).score "qqq" 0),
       (1, (BM25.fit (6/5) (3/4) docsC7).score "qqq" 1),
       (2, (BM25.fit (6/5) (3/4) docsC7).score "qqq" 2)].take k := by
  have hL : (0:ℝ) < Real.log ((8:ℝ)/7) := Real.log_pos (by norm_num)
  have hp0 : (0:ℝ) < (BM25.fit (6/5) (3/4) docsC7).score "qqq" 0 := by
    rw [scoreC7_0]
    positivity
  have hp1 : (0:ℝ) < (BM25.fit (6/5) (3/4) docsC7).score "qqq" 1 := by
    rw [scoreC7_1]
    positivity
  have hp2 : (0:ℝ) < (BM25.fit (6/5) (3/4) docsC7).score "qqq" 2 := by
    rw [scoreC7_2]
    positivity
  have h01 : (BM25.fit (6/5) (3/4) docsC7).score "qqq" 1
      ≤ (BM25.fit (6/5) (3/4) docsC7).score "qqq" 0 := by
    rw [scoreC7_0, scoreC7_1]
    exact mul_le_mul_of_nonneg_left (by norm_num) hL.le
  have h12 : (BM25.fit (6/5) (3/4) docsC7).score "qqq" 2
      ≤ (BM25.fit (6/5) (3/4) docsC7).score "qqq" 1 := by
    rw [scoreC7_1, scoreC7_2]
    exact mul_le_mul_of_nonneg_left (by norm_num) hL.le
  unfold BM25Model.search
  rw [show (BM25.fit (6/5) (3/4) docsC7).docCount = 3 from rfl]
  rw [show List.range 3 = [0, 1, 2] from by decide]
  simp only [List.map_cons, List.map_nil]
  rw [List.filter_eq_self.mpr ?hall]
  case hall =>
    intro x hx
    rcases List.mem_cons.mp hx with h | hx
    · rw [h]
      exact decide_eq_true hp0
    rcases List.mem_cons.mp hx with h | hx
    · rw [h]
      exact decide_eq_true hp1
    rcases List.mem_cons.mp hx with h | hx
    · rw [h]
      exact decide_eq_true hp2
    · simp at hx
  simp only [List.insertionSort, List.orderedInsert]
  rw [if_pos h12]
  simp only [List.orderedInsert]
  rw [if_pos h01]

lemma sparseC7_filtered : HybridSearch.sparseSearch engC7 "qqq" 1 (some ["t"]) = [] := by
  unfold HybridSearch.sparseSearch
  rw [show engC7.bm25 = BM25.fit (6/5) (3/4) docsC7 from rfl,
    show (1 * 2 : ℕ) = 2 from rfl, bm25C7_search 2]
  simp +decide [sparseFilterLoop, engC7, chunksC7, List.take]

lemma sparseC7_unfiltered_ids :
    (HybridSearch.sparseSearch engC7 "qqq" 3 none).map Prod.fst = ["c0", "c1", "c2"] := by
  unfold HybridSearch.sparseSearch
  rw [show engC7.bm25 = BM25.fit (6/5) (3/4) docsC7 from rfl,
    show (3 * 2 : ℕ) = 6 from rfl, bm25C7_search 6]
  simp +decide [sparseFilterLoop, engC7, chunksC7, List.take]

/-- C7 (counterexample): sparse tag filtering happens AFTER a retrieval
truncated to `2 * top_k` BM25 candidates, so top-k budget is wasted on
filtered-out rows.  With three matching documents of which only the
weakest-scoring one is tagged, the filtered sparse search with `top_k = 1`
returns nothing, although the full unfiltered sparse ranking restricted to
tag-carrying chunks contains `c2`: the returned list is not the truncated
restriction of the unfiltered ranking. -/
theorem C7_sparse_budget_counterexample :
    HybridSearch.sparseSearch engC7 "qqq" 1 (some ["t"]) = []
    ∧ ((HybridSearch.sparseSearch engC7 "qqq" 3 none).map Prod.fst).filter
        (fun cid => engC7.chunks.any fun c => c.chunkId == cid && c.tags.contains "t")
      = ["c2"] := by
  refine ⟨sparseC7_filtered, ?_⟩
  rw [sparseC7_unfiltered_ids]
  decide

/-- C7: tag filtering.  (a) No dense hit of a tag-filtered search lacks all
filter tags; (b) no sparse result of a tag-filtered search comes from a
chunk lacking all filter tags; (c) the DENSE side filters before scoring:
its filtered output equals the full unfiltered dense ranking restricted to
tag-eligible rows and truncated to top_k (when the metadata table matches
the embedding matrix and similarities are pairwise distinct).  The sparse
side does NOT satisfy the corresponding equality: it filters after a
retrieval truncated to `2 * top_k` candidates. -/
theorem C7_tag_filtering :
    (∀ (st : EmbeddingStoreModel) (q : List ℝ) (topk : ℕ) (ts : List String) (h : DenseHit),
      ts ≠ [] → h ∈ st.search q topk (some ts) →
      (ts.any fun t => h.meta.tags.contains t) = true)
    ∧
    (∀ (e : HybridEngine) (query : String) (topk : ℕ) (ts : List String)
        (cid : String) (sc : ℝ),
      ts ≠ [] → (cid, sc) ∈ HybridSearch.sparseSearch e query topk (some ts) →
      ∃ c : ChunkDict, (c ∈ e.chunks ∨ c = defaultChunkDict) ∧ c.chunkId = cid ∧
        (ts.any fun t => c.tags.contains t) = true)
    ∧
    (∀ (st : EmbeddingStoreModel) (q : List ℝ) (topk : ℕ) (ts : List String),
      ts ≠ [] →
      st.metadata.length = st.embeddings.length →
      (∀ i, i < st.embeddings.length → ∀ j, j < st.embeddings.length →
        dotp (normalizeVec (st.embeddings.getD i [])) (normalizeVec q)
          = dotp (normalizeVec (st.embeddings.getD j [])) (normalizeVec q) → i = j) →
      st.search q topk (some ts)
        = ((st.search q st.embeddings.length none).filter
            fun h => ts.any fun t => h.meta.tags.contains t).take topk) := by
  refine ⟨?_, ?_, ?_⟩
  · intro st q topk ts h hts hmem
    exact dense_search_tags_subset st q topk ts hts h hmem
  · intro e query topk ts cid sc hts hmem
    have hts' : ts.isEmpty = false := by simpa using hts
    unfold HybridSearch.sparseSearch at hmem
    simp only [Option.getD_some, hts', Bool.not_false] at hmem
    exact sparseFilterLoop_tags e.chunks ts _ topk cid sc hmem
  · intro st q topk ts hts hmeta hinj
    exact dense_search_filter_eq st q topk ts hts hmeta hinj

/-- Store for the C7 witness: two orthogonal unit rows with distinct tags. -/
def stC7W : EmbeddingStoreModel :=
  { dimension := 2
    embeddings := [[1, 0], [0, 1]]
    chunkIds := ["a", "b"]
    metadata := [⟨["t1"]⟩, ⟨["t2"]⟩] }

/-- Witness for C7: the dense filter/rank equality at a concrete store. -/
theorem C7_tag_filtering_witness :
    stC7W.search [1, 0] 1 (some ["t2"])
      = ((stC7W.search [1, 0] stC7W.embeddings.length none).filter
          fun h => ["t2"].any fun t => h.meta.tags.contains t).take 1 := by
  refine C7_tag_filtering.2.2 stC7W [1, 0] 1 ["t2"] (by decide) (by decide) ?_
  intro i hi j hj he
  have hi2 : i < 2 := by simpa [stC7W] using hi
  have hj2 : j < 2 := by simpa [stC7W] using hj
  interval_cases i <;> interval_cases j <;> first
  | rfl
  | (exfalso
     revert he
     simp only [stC7W]
     norm_num [dotp, normalizeVec, l2norm, Real.sqrt_one])
